import Mathlib

/-!
Verification of the TopStepX trade-history repository (Google Apps Script).

This file shallowly embeds the data model and the operations of
`src/GAS/auto_tradehistory.js` (date-window construction, API client,
ledger reconciliation into the spreadsheet row store) and of the daily
aggregation script (`calculateDailyProfits`), and proves or refutes the
frozen specification claims about them.

Modelling conventions, stated once:
* JavaScript numbers are modelled as exact rationals (`Rat`); the source
  performs only ring operations on them along the verified paths.
* Spreadsheet cell values are a sum type `Cell` (number, string,
  native date, empty); the empty cell stands for JS `undefined`/`null`/`''`.
* Exceptions are modelled with `Except`; `UrlFetchApp` responses are an
  explicit environment value (`ApiEnv`).
* The script timezone (`Session.getScriptTimeZone()`) is assumed to equal
  `CONFIG.TIMEZONE` (`Asia/Tokyo`, fixed offset UTC+9, no DST), so that
  parsing a wall-clock string and re-formatting it in the script timezone
  preserves the calendar-date part, exactly as the source relies on.
-/

/-! ## Calendar arithmetic

`Date` validity and day arithmetic as performed by the V8 runtime that
executes the source: ISO `YYYY-MM-DD` strings are range-checked against the
real (proleptic Gregorian) calendar, while the numeric `Date` constructor
used by the aggregator rolls out-of-range components over.  The day-number
conversions are the standard civil-from-days/days-from-civil algorithms. -/

/-- Gregorian leap-year test (as used by the runtime's calendar). -/
def isLeapYear (y : Nat) : Bool :=
  y % 4 = 0 && (y % 100 != 0 || y % 400 = 0)

/-- Number of days in month `m` (1-12) of year `y`. -/
def daysInMonth (y m : Nat) : Nat :=
  if m = 2 then (if isLeapYear y then 29 else 28)
  else if m = 4 || m = 6 || m = 9 || m = 11 then 30
  else 31

/-- A civil calendar date (year, month 1-12, day 1-31). -/
structure Ymd where
  y : Nat
  m : Nat
  d : Nat
deriving DecidableEq, Repr

/-- Days from the civil epoch 1970-01-01 (Howard Hinnant's `days_from_civil`),
on integer components; correct for `1 ≤ m ≤ 12`. -/
def daysFromCivilI (y m d : Int) : Int :=
  let y' : Int := y - (if m ≤ 2 then 1 else 0)
  let era : Int := y'.fdiv 400
  let yoe : Int := y' - era * 400
  let mp : Int := if m > 2 then m - 3 else m + 9
  let doy : Int := (153 * mp + 2).fdiv 5 + d - 1
  let doe : Int := yoe * 365 + yoe.fdiv 4 - yoe.fdiv 100 + doy
  era * 146097 + doe - 719468

/-- Civil date from a day number (Hinnant's `civil_from_days`).  Years
outside the common era are clamped to 0 by `Int.toNat`; no claim in this
development depends on dates that far out of range. -/
def civilFromDays (z : Int) : Ymd :=
  let z' : Int := z + 719468
  let era : Int := z'.fdiv 146097
  let doe : Int := z' - era * 146097
  let yoe : Int := (doe - doe.fdiv 1460 + doe.fdiv 36524 - doe.fdiv 146096).fdiv 365
  let y : Int := yoe + era * 400
  let doy : Int := doe - (365 * yoe + yoe.fdiv 4 - yoe.fdiv 100)
  let mp : Int := (5 * doy + 2).fdiv 153
  let dd : Int := doy - (153 * mp + 2).fdiv 5 + 1
  let mm : Int := if mp < 10 then mp + 3 else mp - 9
  let yy : Int := if mm ≤ 2 then y + 1 else y
  ⟨yy.toNat, mm.toNat, dd.toNat⟩

/-- The numeric `Date(year, month0, day, h, mi, s)` constructor of the
aggregator: components roll over (month 13 advances the year, day 32 the
month, hour 25 the day, ...), normalised through the civil day count.
`mo` is zero-based as in JavaScript. -/
def normalizeLocal (y mo d hh mi ss : Int) : Ymd :=
  let tm : Int := y * 12 + mo
  let ny : Int := tm.fdiv 12
  let nm : Int := tm.emod 12
  let secs : Int := hh * 3600 + mi * 60 + ss
  let z : Int := daysFromCivilI ny (nm + 1) 1 + (d - 1) + secs.fdiv 86400
  civilFromDays z

/-! ## Rendering dates

`Utilities.formatDate(date, tz, 'yyyy-MM-dd')` / the date part of
`Date.prototype.toISOString`: zero-padded 4-digit year, 2-digit month and
day.  (Years ≥ 10000 cannot arise on the verified paths.) -/

/-- The character for the decimal digit `n % 10`. -/
def digitChar (n : Nat) : Char := Char.ofNat (48 + n % 10)

/-- Four-digit zero-padded rendering, as a character list. -/
def pad4Chars (n : Nat) : List Char :=
  [digitChar (n / 1000), digitChar (n / 100), digitChar (n / 10), digitChar n]

/-- Two-digit zero-padded rendering, as a character list. -/
def pad2Chars (n : Nat) : List Char :=
  [digitChar (n / 10), digitChar n]

/-- The `yyyy-MM-dd` rendering of a civil date, as a character list. -/
def renderYmdChars (d : Ymd) : List Char :=
  pad4Chars d.y ++ '-' :: (pad2Chars d.m ++ '-' :: pad2Chars d.d)

/-- The `yyyy-MM-dd` rendering of a civil date. -/
def renderYmd (d : Ymd) : String := ⟨renderYmdChars d⟩

/-! ## The strict date pattern and ISO parsing -/

/-- The regex `^\d{4}-\d{2}-\d{2}$` of `getDateTimestamps`, on a character
list: shape only, no range check. -/
def patternChars : List Char → Bool
  | [a, b, c, d, e, f, g, h, i, j] =>
    a.isDigit && b.isDigit && c.isDigit && d.isDigit && e = '-' &&
    f.isDigit && g.isDigit && h = '-' && i.isDigit && j.isDigit
  | _ => false

/-- `^\d{4}-\d{2}-\d{2}$` on a string. -/
def matchesDatePattern (s : String) : Bool := patternChars s.data

/-- Numeric value of a digit character. -/
def charVal (c : Char) : Nat := c.toNat - 48

/-- ISO calendar-date parsing as performed by `new Date('YYYY-MM-DDT...Z')`
in V8: the pattern must hold and the components must form a real calendar
date, otherwise the result is an Invalid Date (`none`). -/
def parseYmdChars (cs : List Char) : Option Ymd :=
  match cs with
  | [a, b, c, d, e, f, g, h, i, j] =>
    if a.isDigit && b.isDigit && c.isDigit && d.isDigit && e = '-' &&
       f.isDigit && g.isDigit && h = '-' && i.isDigit && j.isDigit then
      let y := charVal a * 1000 + charVal b * 100 + charVal c * 10 + charVal d
      let m := charVal f * 10 + charVal g
      let dd := charVal i * 10 + charVal j
      if 1 ≤ m && m ≤ 12 && 1 ≤ dd && dd ≤ daysInMonth y m then
        some ⟨y, m, dd⟩
      else none
    else none
  | _ => none

/-- Valid-calendar-date parse of a `YYYY-MM-DD` string. -/
def parseYmd (s : String) : Option Ymd := parseYmdChars s.data

/-! ## Date Window Builder (`getDateTimestamps`, lines 893-910) -/

/-- A UTC instant of one calendar day: the day and the millisecond of day. -/
structure Instant where
  date : Ymd
  ms : Nat
deriving DecidableEq, Repr

/-- Absolute UTC milliseconds of an instant (epoch 1970-01-01T00:00Z). -/
def instantAbsMs (i : Instant) : Int :=
  daysFromCivilI i.date.y i.date.m i.date.d * 86400000 + i.ms

/-- The result of `getDateTimestamps`: the `[00:00:00.000Z, 23:59:59.999Z]`
window of the target date (the source returns the two ISO strings; the
structured instants carry the same information). -/
structure Window where
  startTimestamp : Instant
  endTimestamp : Instant
deriving DecidableEq, Repr

/-- How `getDateTimestamps` can fail:
`invalidFormat` is the explicit `'無効な日付形式です...'` throw for inputs
rejected by the regex; `invalidTime` is the `RangeError` that
`toISOString()` raises when the regex passed but `new Date(...)` produced
an Invalid Date (e.g. month 13). -/
inductive DateErr where
  | invalidFormat
  | invalidTime
deriving DecidableEq, Repr

/-- `getDateTimestamps(dateString)` (lines 893-910): validate the shape with
the strict pattern, build `Date`s at `T00:00:00.000Z` and `T23:59:59.999Z`
and return their ISO timestamps; a shape-valid but non-calendar-valid input
makes `toISOString` throw a `RangeError`. -/
def getDateTimestamps (dateString : String) : Except DateErr Window :=
  if ¬ matchesDatePattern dateString then .error .invalidFormat
  else
    match parseYmd dateString with
    | none => .error .invalidTime
    | some d => .ok ⟨⟨d, 0⟩, ⟨d, 86399999⟩⟩

example : getDateTimestamps "2025-05-09" =
    .ok ⟨⟨⟨2025, 5, 9⟩, 0⟩, ⟨⟨2025, 5, 9⟩, 86399999⟩⟩ := rfl
example : getDateTimestamps "2025-13-45" = .error .invalidTime := rfl
example : getDateTimestamps "2025/05/09" = .error .invalidFormat := rfl
example : getDateTimestamps "2025-02-29" = .error .invalidTime := rfl
example : getDateTimestamps "2024-02-29" =
    .ok ⟨⟨⟨2024, 2, 29⟩, 0⟩, ⟨⟨2024, 2, 29⟩, 86399999⟩⟩ := rfl

/-! ## Digit/rendering round trip -/

theorem char_eq_of_toNat_eq {c d : Char} (h : c.toNat = d.toNat) : c = d := by
  unfold Char.toNat at h
  exact Char.eq_of_val_eq (UInt32.ext h)

theorem isDigit_toNat_bounds {c : Char} (h : c.isDigit = true) :
    48 ≤ c.toNat ∧ c.toNat ≤ 57 := by
  simp [Char.isDigit] at h
  exact h

theorem toNat_digitChar {n : Nat} (h : n ≤ 9) : (digitChar n).toNat = 48 + n := by
  have hm : n % 10 = n := Nat.mod_eq_of_lt (by omega)
  unfold digitChar
  rw [hm]
  interval_cases n <;> decide

theorem digitChar_charVal {c : Char} (h : c.isDigit = true) :
    digitChar (charVal c) = c := by
  obtain ⟨h1, h2⟩ := isDigit_toNat_bounds h
  apply char_eq_of_toNat_eq
  rw [toNat_digitChar (by unfold charVal; omega)]
  unfold charVal
  omega

theorem digitChar_congr (m n : Nat) (h : m % 10 = n % 10) :
    digitChar m = digitChar n := by
  unfold digitChar
  rw [h]

/-- A successful strict parse implies the pattern matched, and rendering the
parsed date re-produces exactly the input characters. -/
theorem parseYmdChars_inv {cs : List Char} {d : Ymd}
    (h : parseYmdChars cs = some d) :
    patternChars cs = true ∧ renderYmdChars d = cs := by
  rw [parseYmdChars.eq_def] at h
  split at h
  · rename_i a b c d0 e f g h0 i j
    dsimp only at h
    split_ifs at h with hpat hrange
    · simp only [Bool.and_eq_true, decide_eq_true_eq] at hpat
      obtain ⟨⟨⟨⟨⟨⟨⟨⟨⟨ha, hb⟩, hc⟩, hd⟩, he⟩, hf⟩, hg⟩, hh⟩, hi⟩, hj⟩ := hpat
      obtain ⟨ba1, ba2⟩ := isDigit_toNat_bounds ha
      obtain ⟨bb1, bb2⟩ := isDigit_toNat_bounds hb
      obtain ⟨bc1, bc2⟩ := isDigit_toNat_bounds hc
      obtain ⟨bd1, bd2⟩ := isDigit_toNat_bounds hd
      obtain ⟨bf1, bf2⟩ := isDigit_toNat_bounds hf
      obtain ⟨bg1, bg2⟩ := isDigit_toNat_bounds hg
      obtain ⟨bi1, bi2⟩ := isDigit_toNat_bounds hi
      obtain ⟨bj1, bj2⟩ := isDigit_toNat_bounds hj
      injection h with h
      subst h
      refine ⟨by simp [patternChars, ha, hb, hc, hd, he, hf, hg, hh, hi, hj], ?_⟩
      simp only [renderYmdChars, pad4Chars, pad2Chars, List.cons_append,
        List.nil_append]
      have ea : digitChar ((charVal a * 1000 + charVal b * 100 + charVal c * 10
          + charVal d0) / 1000) = a := by
        rw [digitChar_congr _ (charVal a) (by unfold charVal; omega)]
        exact digitChar_charVal ha
      have eb : digitChar ((charVal a * 1000 + charVal b * 100 + charVal c * 10
          + charVal d0) / 100) = b := by
        rw [digitChar_congr _ (charVal b) (by unfold charVal; omega)]
        exact digitChar_charVal hb
      have ec : digitChar ((charVal a * 1000 + charVal b * 100 + charVal c * 10
          + charVal d0) / 10) = c := by
        rw [digitChar_congr _ (charVal c) (by unfold charVal; omega)]
        exact digitChar_charVal hc
      have ed : digitChar (charVal a * 1000 + charVal b * 100 + charVal c * 10
          + charVal d0) = d0 := by
        rw [digitChar_congr _ (charVal d0) (by unfold charVal; omega)]
        exact digitChar_charVal hd
      have ef : digitChar ((charVal f * 10 + charVal g) / 10) = f := by
        rw [digitChar_congr _ (charVal f) (by unfold charVal; omega)]
        exact digitChar_charVal hf
      have eg : digitChar (charVal f * 10 + charVal g) = g := by
        rw [digitChar_congr _ (charVal g) (by unfold charVal; omega)]
        exact digitChar_charVal hg
      have ei : digitChar ((charVal i * 10 + charVal j) / 10) = i := by
        rw [digitChar_congr _ (charVal i) (by unfold charVal; omega)]
        exact digitChar_charVal hi
      have ej : digitChar (charVal i * 10 + charVal j) = j := by
        rw [digitChar_congr _ (charVal j) (by unfold charVal; omega)]
        exact digitChar_charVal hj
      rw [ea, eb, ec, ed, ef, eg, ei, ej]
      rw [he, hh]
  · exact absurd h (by simp)

/-! ## Claims C4 and C5 (Date Window Builder) -/

/-- C4 counterexample: the input "2025-13-45" is not a valid calendar date in
YYYY-MM-DD form, yet `getDateTimestamps` does not fail with the
InvalidDateFormat error: the string passes the strict shape pattern and the
failure is the unclassified `RangeError` thrown by `toISOString()` on the
Invalid Date. -/
theorem getDateTimestamps_badCalendar_notInvalidFormat :
    matchesDatePattern "2025-13-45" = true ∧
    getDateTimestamps "2025-13-45" = .error .invalidTime ∧
    Except.error (α := Window) DateErr.invalidTime ≠
      Except.error DateErr.invalidFormat := by
  refine ⟨rfl, rfl, ?_⟩
  intro hcontra
  cases hcontra

/-- C4 amended: for every date string rejected by the strict
`\d{4}-\d{2}-\d{2}` pattern, `getDateTimestamps` fails with the
InvalidDateFormat error; only pattern-matching strings that are not real
calendar dates fail differently (with the range error of `toISOString`). -/
theorem getDateTimestamps_invalidFormat (s : String)
    (h : matchesDatePattern s = false) :
    getDateTimestamps s = .error .invalidFormat := by
  simp [getDateTimestamps, h]

theorem getDateTimestamps_invalidFormat_witness :
    matchesDatePattern "2025/05/09" = false ∧
    getDateTimestamps "2025/05/09" = .error .invalidFormat :=
  ⟨rfl, getDateTimestamps_invalidFormat "2025/05/09" rfl⟩

/-- C5: for every valid `YYYY-MM-DD` date string (one that parses to a real
calendar date `d`), `getDateTimestamps` succeeds and produces the pair of
UTC instants at 00:00:00.000 and 23:59:59.999 of that date; both instants
lie on a calendar date whose `yyyy-MM-dd` rendering is exactly the input
string, and the start instant is strictly earlier than the end instant. -/
theorem getDateTimestamps_valid (s : String) (d : Ymd)
    (h : parseYmd s = some d) :
    getDateTimestamps s =
      .ok ⟨⟨d, 0⟩, ⟨d, 86399999⟩⟩ ∧
    renderYmd d = s ∧
    instantAbsMs ⟨d, 0⟩ < instantAbsMs ⟨d, 86399999⟩ := by
  obtain ⟨hpat, hrender⟩ := parseYmdChars_inv h
  refine ⟨?_, ?_, ?_⟩
  · unfold getDateTimestamps
    rw [show matchesDatePattern s = true from hpat]
    simp [h]
  · show (⟨renderYmdChars d⟩ : String) = s
    cases s with
    | mk data => exact congrArg String.mk hrender
  · simp only [instantAbsMs]
    omega

theorem getDateTimestamps_valid_witness :
    parseYmd "2025-05-09" = some ⟨2025, 5, 9⟩ ∧
    (getDateTimestamps "2025-05-09" =
        .ok ⟨⟨⟨2025, 5, 9⟩, 0⟩, ⟨⟨2025, 5, 9⟩, 86399999⟩⟩ ∧
      renderYmd ⟨2025, 5, 9⟩ = "2025-05-09" ∧
      instantAbsMs ⟨⟨2025, 5, 9⟩, 0⟩ < instantAbsMs ⟨⟨2025, 5, 9⟩, 86399999⟩) :=
  ⟨rfl, getDateTimestamps_valid "2025-05-09" ⟨2025, 5, 9⟩ rfl⟩

/-! ## Data model: trades, retrieval results and the spreadsheet row store -/

/-- One executed fill as returned by the Trade/search endpoint.
`profitAndLoss` is `none` for JSON `null`/absent (non-closing fills). -/
structure Trade where
  id : Int
  contractId : String
  creationTimestamp : String
  price : Rat
  profitAndLoss : Option Rat
  fees : Rat
  side : Int
  size : Rat
  voided : Bool
  orderId : Int
deriving DecidableEq, Repr

/-- Per-account element of `getTradeHistory`'s `results` array. -/
structure AccountResult where
  accountId : Int
  tradeCount : Nat
  trades : List Trade
deriving DecidableEq, Repr

/-- The value returned by `getTradeHistory`: success flag, target date,
per-account results, and the error message of the failure paths. -/
structure THResult where
  success : Bool
  date : String
  results : List AccountResult
  message : String
deriving DecidableEq, Repr

/-- A spreadsheet cell value: number, string, native date (represented by
its wall-clock calendar date in the script timezone), or blank
(JS `''`/`null`/`undefined`). -/
inductive Cell where
  | num (q : Rat)
  | str (s : String)
  | date (d : Ymd)
  | empty
deriving DecidableEq, Repr

/-- The 取引履歴 sheet: the header row and the data rows (sheet rows 2..). -/
structure Sheet where
  header : List Cell
  rows : List (List Cell)
deriving DecidableEq, Repr

/-- The 11-column header written by `saveTradeHistoryToSheet` (line 296). -/
def newHeaderCells : List Cell :=
  [.str "ID", .str "アカウントID", .str "契約ID", .str "取引日時", .str "価格",
   .str "損益", .str "手数料", .str "売買区分", .str "サイズ", .str "無効",
   .str "注文ID"]

/-- One ledger row built from a trade (lines 371-383): `side` mapped to
買い/売り, `voided` to はい/いいえ, a null P&L stored as a blank cell. -/
def tradeToRow (accountId : Int) (t : Trade) : List Cell :=
  [.num (t.id : Rat), .num (accountId : Rat), .str t.contractId,
   .str t.creationTimestamp, .num t.price,
   (match t.profitAndLoss with | some q => .num q | none => .empty),
   .num t.fees, .str (if t.side = 0 then "買い" else "売り"), .num t.size,
   .str (if t.voided then "はい" else "いいえ"), .num (t.orderId : Rat)]

/-- The replacement rows: `result.results` flattened in account order,
each account's trades in order (the nested `forEach` of lines 369-390). -/
def buildRows (result : THResult) : List (List Cell) :=
  (result.results.map (fun ar => ar.trades.map (tradeToRow ar.accountId))).flatten

/-! ## The per-row date of the reconciler's scan (lines 327-352)

A `Date`-valued cell is formatted directly in `CONFIG.TIMEZONE`.  A string
cell of length ≥ 10 has its first 19 characters parsed as a wall-clock
datetime and re-formatted; under the script-timezone assumption stated at
the top of the file this yields exactly the first 10 characters, provided
they form a real calendar date and any continuation starts the time part
(`'T'` or `' '`); otherwise the parse throws/yields Invalid Date and the
row is logged and skipped (`none`).  Blank and numeric cells are skipped. -/
def cellDateStr (c : Cell) : Option String :=
  match c with
  | .date d => some (renderYmd d)
  | .str s =>
    match parseYmdChars (s.data.take 10) with
    | some _ =>
      match s.data.drop 10 with
      | [] => some ⟨s.data.take 10⟩
      | ch :: _ => if ch = ' ' ∨ ch = 'T' then some ⟨s.data.take 10⟩ else none
    | none => none
  | _ => none

/-- Does a ledger row belong to `targetDate`?  The scan reads column D
(0-based index 3) of the row; a missing cell reads as blank. -/
def rowMatches (targetDate : String) (row : List Cell) : Bool :=
  cellDateStr (row.getD 3 Cell.empty) = some targetDate

/-- The 0-based positions collected by the scan loop (lines 327-352); the
source stores `i + 2` (1-based sheet rows below the header), which is the
same set shifted by the fixed header offset. -/
def matchIdxs (targetDate : String) (rows : List (List Cell)) : List Nat :=
  (rows.enum.filter (fun p => rowMatches targetDate p.2)).map Prod.fst

/-- Deleting a list of positions highest-first (lines 358-360): the index
list is ascending, so it is processed in reverse. -/
def eraseIdxsDesc {α : Type} (l : List α) (idxs : List Nat) : List α :=
  idxs.reverse.foldl (fun acc i => acc.eraseIdx i) l

/-! ## Back-to-front positional deletion is removal of the matching rows -/

theorem foldl_eraseIdx_shift {α : Type} (js : List Nat) (r : α) (acc : List α) :
    js.foldl (fun a i => a.eraseIdx (i + 1)) (r :: acc) =
      r :: js.foldl (fun a i => a.eraseIdx i) acc := by
  induction js generalizing acc with
  | nil => rfl
  | cons j js ih =>
    simp only [List.foldl_cons, List.eraseIdx_cons_succ]
    exact ih (acc.eraseIdx j)

theorem enumFrom_succ_eq_map {α : Type} :
    ∀ (rs : List α) (n : Nat),
      List.enumFrom (n + 1) rs =
        List.map (Prod.map (· + 1) id) (List.enumFrom n rs) := by
  intro rs
  induction rs with
  | nil => intro n; rfl
  | cons a l ih =>
    intro n
    simp only [List.enumFrom_cons, List.map_cons, Prod.map, id]
    exact congrArg ((n + 1, a) :: ·) (ih (n + 1))

theorem eraseIdxsDesc_collected {α : Type} (p : α → Bool) :
    ∀ l : List α,
      eraseIdxsDesc l ((l.enum.filter (fun q => p q.2)).map Prod.fst) =
        l.filter (fun r => !p r) := by
  intro l
  induction l with
  | nil => rfl
  | cons r rs ih =>
    have henum : (r :: rs).enum =
        (0, r) :: rs.enum.map (Prod.map (· + 1) id) := by
      rw [List.enum_cons]
      rw [show List.enumFrom 1 rs = List.enumFrom (0 + 1) rs from rfl,
        enumFrom_succ_eq_map]
      rfl
    rw [henum]
    have hfilter :
        ((rs.enum.map (Prod.map (· + 1) id)).filter (fun q => p q.2)) =
          (rs.enum.filter (fun q => p q.2)).map (Prod.map (· + 1) id) := by
      rw [List.filter_map]
      rfl
    have hmapfst :
        ((rs.enum.filter (fun q => p q.2)).map (Prod.map (· + 1) id)).map
            Prod.fst =
          ((rs.enum.filter (fun q => p q.2)).map Prod.fst).map (· + 1) := by
      simp only [List.map_map]
      rfl
    set base := (rs.enum.filter (fun q => p q.2)).map Prod.fst with hbase
    by_cases hp : p r
    · rw [List.filter_cons_of_pos (by simpa using hp), List.map_cons, hfilter,
        hmapfst, List.filter_cons_of_neg (by simp [hp])]
      unfold eraseIdxsDesc
      rw [List.reverse_cons, List.foldl_append, ← List.map_reverse,
        List.foldl_map, foldl_eraseIdx_shift]
      simp only [List.foldl_cons, List.foldl_nil, List.eraseIdx_cons_zero]
      exact ih
    · have hp' : p r = false := by simpa using hp
      rw [List.filter_cons_of_neg (by simp [hp']), hfilter, hmapfst,
        List.filter_cons_of_pos (by simp [hp'])]
      unfold eraseIdxsDesc
      rw [← List.map_reverse, List.foldl_map, foldl_eraseIdx_shift]
      exact congrArg (r :: ·) ih

/-- The net effect of the scan-collect-delete phase (lines 320-361): the
rows whose computed date equals the target date are removed, the rest keep
their order. -/
theorem eraseIdxsDesc_matchIdxs (targetDate : String)
    (rows : List (List Cell)) :
    eraseIdxsDesc rows (matchIdxs targetDate rows) =
      rows.filter (fun r => !rowMatches targetDate r) :=
  eraseIdxsDesc_collected (rowMatches targetDate) rows

/-! ## Ledger Reconciler (`saveTradeHistoryToSheet`, lines 283-423) -/

/-- The state-and-report outcome of one reconcile call: the row store after
the call, the success flag and the message of the returned object (the
numeric report fields `tradeCount`/`totalProfit` only feed the message and
notification email and are elided). -/
structure SaveResult where
  store : Option Sheet
  success : Bool
  message : String
deriving DecidableEq, Repr

/-- `saveTradeHistoryToSheet(targetDate, result)` (lines 283-423) over an
explicit row store (`none` = the 取引履歴 sheet does not exist):
1. a failed retrieval result returns early, the store untouched;
2. a missing sheet is created with the 11-column header; an existing sheet
   whose first 11 header cells differ from the expected header is cleared
   entirely and the header rewritten (lines 308-318); a completely empty
   existing sheet makes `getRange(1,1,1,0)` throw, caught at line 414 with
   the store untouched;
3. the scan collects the positions of data rows whose computed date equals
   `targetDate` and deletes them highest-first (lines 320-361);
4. the replacement rows are appended at the end in one write (lines 393-400). -/
def saveTradeHistoryToSheet (targetDate : String) (result : THResult)
    (store : Option Sheet) : SaveResult :=
  if result.success = false then
    ⟨store, false, "取引履歴の取得に失敗しました: " ++ result.message⟩
  else
    let prepared : Option Sheet :=
      match store with
      | none => some ⟨newHeaderCells, []⟩
      | some sh =>
        if sh.header = [] then none
        else if sh.header.take 11 = newHeaderCells then some sh
        else some ⟨newHeaderCells, []⟩
    match prepared with
    | none =>
      ⟨store, false, "スプレッドシート出力中にエラーが発生しました"⟩
    | some sh =>
      let kept := eraseIdxsDesc sh.rows (matchIdxs targetDate sh.rows)
      ⟨some ⟨sh.header, kept ++ buildRows result⟩, true,
        targetDate ++ "の取引履歴をスプレッドシートに保存しました"⟩

/-- The store's rows whose computed trade date equals `date`. -/
def rowsForDate (store : Option Sheet) (date : String) : List (List Cell) :=
  (match store with | none => [] | some sh => sh.rows).filter
    (rowMatches date)

theorem filter_keep_append {α : Type} (p : α → Bool) (X B : List α) :
    (X.filter (fun r => !p r) ++ B).filter p = B.filter p := by
  rw [List.filter_append]
  have hX : (X.filter (fun r => !p r)).filter p = [] := by
    induction X with
    | nil => rfl
    | cons a l ih =>
      by_cases ha : p a
      · simp [List.filter_cons, ha, ih]
      · simp [List.filter_cons, ha, ih]
  rw [hX, List.nil_append]

/-! Branch equations for `saveTradeHistoryToSheet`. -/

theorem save_failure (targetDate : String) (result : THResult)
    (store : Option Sheet) (hs : result.success = false) :
    saveTradeHistoryToSheet targetDate result store =
      ⟨store, false, "取引履歴の取得に失敗しました: " ++ result.message⟩ := by
  simp [saveTradeHistoryToSheet, hs]

theorem save_noSheet (targetDate : String) (result : THResult)
    (hs : result.success = true) :
    saveTradeHistoryToSheet targetDate result none =
      ⟨some ⟨newHeaderCells, buildRows result⟩, true,
        targetDate ++ "の取引履歴をスプレッドシートに保存しました"⟩ := by
  simp [saveTradeHistoryToSheet, hs, eraseIdxsDesc_matchIdxs]

theorem save_emptyHeader (targetDate : String) (result : THResult)
    (sh : Sheet) (hs : result.success = true) (h0 : sh.header = []) :
    saveTradeHistoryToSheet targetDate result (some sh) =
      ⟨some sh, false, "スプレッドシート出力中にエラーが発生しました"⟩ := by
  simp [saveTradeHistoryToSheet, hs, h0]

theorem save_matchingHeader (targetDate : String) (result : THResult)
    (sh : Sheet) (hs : result.success = true) (h0 : sh.header ≠ [])
    (h11 : sh.header.take 11 = newHeaderCells) :
    saveTradeHistoryToSheet targetDate result (some sh) =
      ⟨some ⟨sh.header,
          sh.rows.filter (fun r => !rowMatches targetDate r) ++
            buildRows result⟩, true,
        targetDate ++ "の取引履歴をスプレッドシートに保存しました"⟩ := by
  simp [saveTradeHistoryToSheet, hs, h0, h11, eraseIdxsDesc_matchIdxs]

theorem save_differentHeader (targetDate : String) (result : THResult)
    (sh : Sheet) (hs : result.success = true) (h0 : sh.header ≠ [])
    (h11 : sh.header.take 11 ≠ newHeaderCells) :
    saveTradeHistoryToSheet targetDate result (some sh) =
      ⟨some ⟨newHeaderCells, buildRows result⟩, true,
        targetDate ++ "の取引履歴をスプレッドシートに保存しました"⟩ := by
  simp [saveTradeHistoryToSheet, hs, h0, h11, eraseIdxsDesc_matchIdxs]

/-- C1: running the reconciler twice in succession with the identical
retrieval result leaves the store's rows for the target date identical to
the rows after a single call: the second call deletes exactly the
target-date rows the first call appended and re-appends the same rows. -/
theorem saveTradeHistoryToSheet_idempotent (targetDate : String)
    (result : THResult) (store : Option Sheet) :
    rowsForDate (saveTradeHistoryToSheet targetDate result
        (saveTradeHistoryToSheet targetDate result store).store).store
        targetDate =
      rowsForDate (saveTradeHistoryToSheet targetDate result store).store
        targetDate := by
  have hhd : newHeaderCells.take 11 = newHeaderCells := rfl
  have hne : newHeaderCells ≠ ([] : List Cell) := by
    simp [newHeaderCells]
  by_cases hs : result.success = true
  case neg =>
    have hs' : result.success = false := by
      cases h : result.success
      · rfl
      · exact absurd h hs
    rw [save_failure targetDate result store hs']
    dsimp only
    rw [save_failure targetDate result store hs']
  case pos =>
    cases store with
    | none =>
      rw [save_noSheet targetDate result hs]
      dsimp only
      rw [save_matchingHeader targetDate result
        ⟨newHeaderCells, buildRows result⟩ hs hne hhd]
      simp only [rowsForDate]
      exact filter_keep_append _ _ _
    | some sh =>
      by_cases h0 : sh.header = []
      · rw [save_emptyHeader targetDate result sh hs h0]
        dsimp only
        rw [save_emptyHeader targetDate result sh hs h0]
      · by_cases h11 : sh.header.take 11 = newHeaderCells
        · rw [save_matchingHeader targetDate result sh hs h0 h11]
          dsimp only
          rw [save_matchingHeader targetDate result
            ⟨sh.header, List.filter (fun r => !rowMatches targetDate r) sh.rows
              ++ buildRows result⟩ hs h0 h11]
          simp only [rowsForDate]
          rw [filter_keep_append, filter_keep_append]
        · rw [save_differentHeader targetDate result sh hs h0 h11]
          dsimp only
          rw [save_matchingHeader targetDate result
            ⟨newHeaderCells, buildRows result⟩ hs hne hhd]
          simp only [rowsForDate]
          exact filter_keep_append _ _ _

/-- C10: when the ledger sheet exists with a (non-empty) first-row header
whose first 11 cells differ from the expected 11-column header, reconcile
clears the entire sheet contents - every stored row for every date - then
rewrites the header and appends only the target date's replacement rows;
rows of other dates are not preserved on this path. -/
theorem saveTradeHistoryToSheet_headerMismatch_clearsAll
    (targetDate : String) (result : THResult) (sh : Sheet)
    (hs : result.success = true) (h0 : sh.header ≠ [])
    (h11 : sh.header.take 11 ≠ newHeaderCells) :
    saveTradeHistoryToSheet targetDate result (some sh) =
      ⟨some ⟨newHeaderCells, buildRows result⟩, true,
        targetDate ++ "の取引履歴をスプレッドシートに保存しました"⟩ :=
  save_differentHeader targetDate result sh hs h0 h11

theorem saveTradeHistoryToSheet_headerMismatch_witness :
    saveTradeHistoryToSheet "2025-05-09"
        ⟨true, "2025-05-09",
          [⟨7, 1, [⟨101, "CON.F.US.MNQ", "2025-05-09T01:00:00Z", 100,
            some 5, 1, 0, 1, false, 900⟩]⟩], ""⟩
        (some ⟨[Cell.str "旧ヘッダー"],
          [[Cell.num 1, Cell.num 2, Cell.str "c",
            Cell.str "2025-05-08 10:00:00", Cell.num 3]]⟩) =
      ⟨some ⟨newHeaderCells,
          buildRows ⟨true, "2025-05-09",
            [⟨7, 1, [⟨101, "CON.F.US.MNQ", "2025-05-09T01:00:00Z", 100,
              some 5, 1, 0, 1, false, 900⟩]⟩], ""⟩⟩, true,
        "2025-05-09" ++ "の取引履歴をスプレッドシートに保存しました"⟩ :=
  saveTradeHistoryToSheet_headerMismatch_clearsAll "2025-05-09" _ _
    rfl (by decide) (by decide)

/-! ## The HTTP client (`authenticate`, `searchAccounts`, `searchTrades`,
lines 746-886)

`UrlFetchApp.fetch` responses are an explicit environment value: an HTTP
status code and a body, where `none` stands for a body `JSON.parse` rejects
(the `SyntaxError` branches) and `some b` for the parsed JSON object.
Absent JSON fields are encoded by the neutral values noted per field. -/

/-- An HTTP response carrying a parseable (`some`) or unparseable (`none`)
JSON body. -/
structure ApiResp (β : Type) where
  code : Nat
  body : Option β
deriving DecidableEq, Repr

/-- Parsed body of `/Auth/loginKey`: `success` (missing/falsy ⇒ `false`),
`errorCode` (`none` = field absent), `token` (`""` = absent or empty),
`errorMessage`. -/
structure AuthBody where
  success : Bool
  errorCode : Option Int
  token : String
  errorMessage : String
deriving DecidableEq, Repr

/-- A trading account from `/Account/search`: `name` is `none` when the
JSON field is missing or not a string. -/
structure Account where
  id : Int
  name : Option String
deriving DecidableEq, Repr

/-- Parsed body of `/Account/search`; `accounts = none` when the field is
absent (JS falsy), `some l` otherwise (an empty array is truthy). -/
structure AccountsBody where
  success : Bool
  errorCode : Option Int
  accounts : Option (List Account)
  errorMessage : String
deriving DecidableEq, Repr

/-- Parsed body of `/Trade/search`; `trades = none` when the field is
absent (`responseData.trades || []` then yields the empty list). -/
structure TradesBody where
  success : Bool
  errorCode : Option Int
  trades : Option (List Trade)
  errorMessage : String
deriving DecidableEq, Repr

/-- The remote API as seen by one run: the fixed responses of the auth and
account-search endpoints and the per-account response of trade search. -/
structure ApiEnv where
  auth : ApiResp AuthBody
  accountSearch : ApiResp AccountsBody
  tradeSearch : Int → ApiResp TradesBody

/-- `authenticate(userName, apiKey)` (lines 746-785): an unparseable body
raises the `SyntaxError` re-throw; success requires HTTP 200 and
`success` truthy and `errorCode === 0` and a truthy `token`, otherwise the
`認証エラー` throw. -/
def authenticate (resp : ApiResp AuthBody) : Except String String :=
  match resp.body with
  | none => .error "認証レスポンスの解析に失敗しました。"
  | some b =>
    if resp.code = 200 ∧ b.success = true ∧ b.errorCode = some 0 ∧
        b.token ≠ "" then
      .ok b.token
    else
      .error ("認証エラー: " ++ b.errorMessage)

/-- `searchAccounts(token)` (lines 792-833): same four-part contract, with
the truthiness check on the `accounts` field (an absent field fails, an
empty array passes). -/
def searchAccounts (resp : ApiResp AccountsBody) :
    Except String (List Account) :=
  match resp.body with
  | none => .error "アカウント検索レスポンスの解析に失敗しました。"
  | some b =>
    match b.accounts with
    | some l =>
      if resp.code = 200 ∧ b.success = true ∧ b.errorCode = some 0 then
        .ok l
      else
        .error ("アカウント検索エラー: " ++ b.errorMessage)
    | none => .error ("アカウント検索エラー: " ++ b.errorMessage)

/-- `searchTrades(token, accountId, ...)` (lines 843-886): three-part
contract (`trades` may be absent, defaulted to `[]`); non-success throws
the account-scoped `取引検索エラー`. -/
def searchTrades (resp : ApiResp TradesBody) : Except String (List Trade) :=
  match resp.body with
  | none => .error "取引検索レスポンスの解析に失敗しました。"
  | some b =>
    if resp.code = 200 ∧ b.success = true ∧ b.errorCode = some 0 then
      .ok (b.trades.getD [])
    else
      .error ("取引検索エラー: " ++ b.errorMessage)

/-- The PRACTICE filter of lines 690-695: keep an account iff its name is
a string whose upper-casing does not start with "PRACTICE". -/
def keepAccount (a : Account) : Bool :=
  match a.name with
  | some n => !("PRACTICE".data.isPrefixOf (n.data.map Char.toUpper))
  | none => false

/-- `getTradeHistory(targetDate)` (lines 674-738): authenticate, list and
filter accounts, build the date window, then fetch each account's trades in
order with `forEach`; any exception from a `searchTrades` call propagates
out of the loop into the top-level catch, so the remaining accounts are not
queried and the whole run returns `success:false` with no results. -/
def getTradeHistory (env : ApiEnv) (targetDate : String) : THResult :=
  match authenticate env.auth with
  | .error e => ⟨false, "", [], "取引履歴取得処理エラー: " ++ e⟩
  | .ok token =>
    if token = "" then
      ⟨false, "", [],
        "取引履歴取得処理エラー: 認証に失敗しました。トークンが取得できませんでした。"⟩
    else
      match searchAccounts env.accountSearch with
      | .error e => ⟨false, "", [], "取引履歴取得処理エラー: " ++ e⟩
      | .ok allAccounts =>
        if allAccounts.isEmpty then
          ⟨false, "", [], "アクティブなアカウントが見つかりませんでした"⟩
        else
          let filtered := allAccounts.filter keepAccount
          if filtered.isEmpty then
            ⟨false, "", [],
              "PRACTICEアカウントを除外した結果、対象となる取引アカウントが見つかりませんでした。"⟩
          else
            match getDateTimestamps targetDate with
            | .error _ =>
              ⟨false, "", [], "取引履歴取得処理エラー: 無効な日付形式です。"⟩
            | .ok _ =>
              match filtered.mapM (fun a =>
                  (searchTrades (env.tradeSearch a.id)).map
                    (fun ts => AccountResult.mk a.id ts.length ts)) with
              | .error e => ⟨false, "", [], "取引履歴取得処理エラー: " ++ e⟩
              | .ok results => ⟨true, targetDate, results, ""⟩

/-- `fetchAndSaveTradeHistory(targetDate)` (lines 243-275): retrieval first;
on failure return early with the error message, otherwise reconcile the
result into the row store. -/
def fetchAndSaveTradeHistory (targetDate : String) (env : ApiEnv)
    (store : Option Sheet) : SaveResult :=
  let thr := getTradeHistory env targetDate
  if thr.success = false then
    ⟨store, false, "取引履歴の取得に失敗しました: " ++ thr.message⟩
  else
    saveTradeHistoryToSheet targetDate thr store

/-! ## Claim C3 (authentication contract) -/

/-- C3: `authenticate` returns a token iff the response satisfies all four
conditions - HTTP 200, parsed body with truthy success flag, errorCode
strictly equal to 0, and a non-empty token - and whenever a parsed response
fails any one of the four, the failure is the authentication error (the
認証エラー throw), never a token; an unparseable body instead raises the
distinct parse error, as specified separately in §4.2. -/
theorem authenticate_token_iff_fourConditions (resp : ApiResp AuthBody) :
    ((∃ t, authenticate resp = .ok t) ↔
      (resp.code = 200 ∧ ∃ b, resp.body = some b ∧ b.success = true ∧
        b.errorCode = some 0 ∧ b.token ≠ "")) ∧
    (∀ b, resp.body = some b →
      ¬(resp.code = 200 ∧ b.success = true ∧ b.errorCode = some 0 ∧
          b.token ≠ "") →
      authenticate resp = .error ("認証エラー: " ++ b.errorMessage)) := by
  constructor
  · constructor
    · rintro ⟨t, ht⟩
      unfold authenticate at ht
      cases hb : resp.body with
      | none => rw [hb] at ht; cases ht
      | some b =>
        rw [hb] at ht
        dsimp only at ht
        split_ifs at ht with hcond
        exact ⟨hcond.1, b, rfl, hcond.2.1, hcond.2.2.1, hcond.2.2.2⟩
    · rintro ⟨hcode, b, hb, hsucc, herr, htok⟩
      refine ⟨b.token, ?_⟩
      unfold authenticate
      rw [hb]
      dsimp only
      rw [if_pos ⟨hcode, hsucc, herr, htok⟩]
  · intro b hb hnot
    unfold authenticate
    rw [hb]
    dsimp only
    rw [if_neg hnot]

/-! ## Claim C2 (one account's search failure aborts the run) -/

/-- Did an `Except` computation fail? -/
def failed {ε α : Type} (e : Except ε α) : Bool :=
  match e with
  | .ok _ => false
  | .error _ => true

/-- The account list `getTradeHistory` iterates over: the successful
account-search result with PRACTICE accounts removed (empty on a failed
account search). -/
def filteredAccounts (env : ApiEnv) : List Account :=
  match searchAccounts env.accountSearch with
  | .ok l => l.filter keepAccount
  | .error _ => []

theorem mapM_ok_not_failed {α β : Type} (f : α → Except String β) :
    ∀ (l : List α) (r : List β), l.mapM f = .ok r →
      ∀ x ∈ l, failed (f x) = false := by
  intro l
  induction l with
  | nil => intro r _ x hx; cases hx
  | cons a l ih =>
    intro r hm x hx
    rw [List.mapM_cons] at hm
    cases hfa : f a with
    | error e =>
      rw [hfa] at hm
      simp only [Bind.bind, Except.bind] at hm
      cases hm
    | ok b =>
      rw [hfa] at hm
      simp only [Bind.bind, Except.bind] at hm
      cases hrest : l.mapM f with
      | error e =>
        rw [hrest] at hm
        cases hm
      | ok bs =>
        cases hx with
        | head => rw [hfa]; rfl
        | tail _ hx' => exact ih bs hrest x hx'

theorem failed_map {ε α β : Type} (e : Except ε α) (g : α → β) :
    failed (e.map g) = failed e := by
  cases e <;> rfl

/-- C2 amended: when the trade search fails for any account in the filtered
list, `getTradeHistory` aborts the whole run: the thrown account-scoped
error escapes the `forEach` into the top-level catch, so the run returns
`success:false` with an empty results list (there is no partial outcome in
the code). -/
theorem getTradeHistory_abortsOnAccountFailure (env : ApiEnv)
    (targetDate : String)
    (h : ∃ a ∈ filteredAccounts env,
      failed (searchTrades (env.tradeSearch a.id)) = true) :
    (getTradeHistory env targetDate).success = false ∧
    (getTradeHistory env targetDate).results = [] := by
  obtain ⟨a, ha, hfail⟩ := h
  unfold getTradeHistory
  cases hauth : authenticate env.auth with
  | error e => exact ⟨rfl, rfl⟩
  | ok token =>
    dsimp only
    by_cases htok : token = ""
    · rw [if_pos htok]; exact ⟨rfl, rfl⟩
    · rw [if_neg htok]
      cases hacc : searchAccounts env.accountSearch with
      | error e => exact ⟨rfl, rfl⟩
      | ok allAccounts =>
        dsimp only
        by_cases hempty : allAccounts.isEmpty = true
        · rw [if_pos hempty]; exact ⟨rfl, rfl⟩
        · rw [if_neg hempty]
          have hfa : filteredAccounts env = allAccounts.filter keepAccount := by
            unfold filteredAccounts
            rw [hacc]
          by_cases hfe : (allAccounts.filter keepAccount).isEmpty = true
          · rw [if_pos hfe]; exact ⟨rfl, rfl⟩
          · rw [if_neg hfe]
            cases hdw : getDateTimestamps targetDate with
            | error e => exact ⟨rfl, rfl⟩
            | ok w =>
              dsimp only
              cases hm : (allAccounts.filter keepAccount).mapM (fun a =>
                  (searchTrades (env.tradeSearch a.id)).map
                    (fun ts => AccountResult.mk a.id ts.length ts)) with
              | error e => exact ⟨rfl, rfl⟩
              | ok results =>
                exfalso
                have hok := mapM_ok_not_failed _ _ _ hm a (hfa ▸ ha)
                rw [failed_map] at hok
                rw [hfail] at hok
                cases hok

/-- A concrete environment: valid auth, two production accounts; trade
search fails (HTTP 500, success:false) for account 1 and succeeds with one
trade for every other account. -/
def failingTradesEnv : ApiEnv where
  auth := ⟨200, some ⟨true, some 0, "tok", ""⟩⟩
  accountSearch := ⟨200, some ⟨true, some 0,
    some [⟨1, some "Alpha"⟩, ⟨2, some "Beta"⟩], ""⟩⟩
  tradeSearch := fun i =>
    if i = 1 then ⟨500, some ⟨false, some 5, none, "Internal error"⟩⟩
    else ⟨200, some ⟨true, some 0,
      some [⟨101, "CON.F.US.MNQ", "2025-05-09T01:00:00Z", 100,
        some 5, 1, 0, 1, false, 900⟩], ""⟩⟩

/-- C2 counterexample: account 1's trade search fails while account 2's
succeeds, yet the run does not proceed with the successful account and is
not marked partial: `getTradeHistory` returns `success:false` with no
per-account results at all. -/
theorem getTradeHistory_oneFailure_abortsRun :
    failed (searchTrades (failingTradesEnv.tradeSearch 1)) = true ∧
    searchTrades (failingTradesEnv.tradeSearch 2) =
      .ok [⟨101, "CON.F.US.MNQ", "2025-05-09T01:00:00Z", 100,
        some 5, 1, 0, 1, false, 900⟩] ∧
    (getTradeHistory failingTradesEnv "2025-05-09").success = false ∧
    (getTradeHistory failingTradesEnv "2025-05-09").results = [] :=
  ⟨rfl, rfl, rfl, rfl⟩

theorem getTradeHistory_abortsOnAccountFailure_witness :
    (∃ a ∈ filteredAccounts failingTradesEnv,
      failed (searchTrades (failingTradesEnv.tradeSearch a.id)) = true) ∧
    ((getTradeHistory failingTradesEnv "2025-05-09").success = false ∧
      (getTradeHistory failingTradesEnv "2025-05-09").results = []) :=
  ⟨by decide,
    getTradeHistory_abortsOnAccountFailure failingTradesEnv "2025-05-09"
      (by decide)⟩

/-! ## Claim C9 (failed retrieval leaves the row store untouched) -/

/-- C9: when trade retrieval fails (`getTradeHistory` returns an
unsuccessful result), `fetchAndSaveTradeHistory` returns before any row
store access: no rows of the target date (or of any other date) are
deleted, the store is exactly its pre-run state. -/
theorem fetchAndSave_failedRetrieval_preservesStore (targetDate : String)
    (env : ApiEnv) (store : Option Sheet)
    (h : (getTradeHistory env targetDate).success = false) :
    (fetchAndSaveTradeHistory targetDate env store).store = store := by
  simp [fetchAndSaveTradeHistory, h]

/-- An environment whose authentication is rejected (HTTP 401). -/
def authFailEnv : ApiEnv where
  auth := ⟨401, some ⟨false, some 3, "", "invalid key"⟩⟩
  accountSearch := ⟨200, some ⟨true, some 0, some [], ""⟩⟩
  tradeSearch := fun _ => ⟨200, some ⟨true, some 0, none, ""⟩⟩

theorem fetchAndSave_failedRetrieval_witness :
    (fetchAndSaveTradeHistory "2025-05-09" authFailEnv
        (some ⟨newHeaderCells,
          [[Cell.num 9, Cell.num 2, Cell.str "c",
            Cell.str "2025-05-08 10:00:00", Cell.num 3]]⟩)).store =
      some ⟨newHeaderCells,
        [[Cell.num 9, Cell.num 2, Cell.str "c",
          Cell.str "2025-05-08 10:00:00", Cell.num 3]]⟩ :=
  fetchAndSave_failedRetrieval_preservesStore "2025-05-09" authFailEnv _ rfl

/-! ## The Daily Aggregator (`calculateDailyProfits`, src/unnamed/part_000)

JavaScript numeric coercions used by the aggregator:
`parseFloat` parses the longest numeric prefix after optional whitespace
and sign (`NaN` = `none`); `Number` (used on the split date components)
requires the whole trimmed string to be numeric, with the empty string
coercing to 0.  Exponent and hexadecimal forms do not occur in ledger data
and are not modelled. -/

/-- Decimal value of a digit-character list. -/
def digitsVal (cs : List Char) : Nat :=
  cs.foldl (fun acc c => acc * 10 + charVal c) 0

/-- Exact rational addition, spelled out on numerator/denominator (equal to
`+` by `jsAdd_eq`; the explicit form keeps the development evaluable by the
kernel, which the library's `@[irreducible]` `Rat.add` is not).  This is
the exact-arithmetic idealisation of a JavaScript `+` on numbers; the
IEEE-754 binary64 semantics the program actually computes with is `fpAdd`
below, which rounds the exact sum to the nearest double. -/
def jsAdd (a b : Rat) : Rat :=
  mkRat (a.num * b.den + b.num * a.den) (a.den * b.den)

/-- Exact rational subtraction (equal to `-` by `jsSub_eq`; the binary64
semantics is `fpSub` below). -/
def jsSub (a b : Rat) : Rat :=
  mkRat (a.num * b.den - b.num * a.den) (a.den * b.den)

theorem jsAdd_eq (a b : Rat) : jsAdd a b = a + b := (Rat.add_def' a b).symm

theorem jsSub_eq (a b : Rat) : jsSub a b = a - b := (Rat.sub_def' a b).symm

/-- JS whitespace for numeric trimming. -/
def isJsSpace (c : Char) : Bool :=
  c = ' ' || c = '\t' || c = '\n' || c = '\r'

/-- `parseFloat` on a character list: longest numeric prefix, `none` = NaN. -/
def parseFloatChars (cs : List Char) : Option Rat :=
  let cs1 := cs.dropWhile isJsSpace
  let signAndRest : Bool × List Char :=
    match cs1 with
    | '-' :: rest => (true, rest)
    | '+' :: rest => (false, rest)
    | _ => (false, cs1)
  let ds1 := signAndRest.2.takeWhile Char.isDigit
  let after1 := signAndRest.2.dropWhile Char.isDigit
  let ds2 :=
    match after1 with
    | '.' :: rest => rest.takeWhile Char.isDigit
    | _ => []
  if ds1.isEmpty && ds2.isEmpty then none
  else
    let n : Int := (digitsVal ds1 * 10 ^ ds2.length + digitsVal ds2 : Nat)
    some (mkRat (if signAndRest.1 then -n else n) (10 ^ ds2.length))

/-- `parseFloat(cellValue)` of the aggregator (lines 115-116): numbers
round-trip through their decimal rendering, strings get the prefix parse,
anything else (blank, `Date`) is NaN. -/
def jsParseFloat (c : Cell) : Option Rat :=
  match c with
  | .num q => some q
  | .str s => parseFloatChars s.data
  | _ => none

/-- `Number(component)` on a split date/time component: trim; empty string
is 0; otherwise the whole component must be a decimal literal. -/
def jsNumberChars (cs : List Char) : Option Rat :=
  let t := ((cs.dropWhile isJsSpace).reverse.dropWhile isJsSpace).reverse
  match t with
  | [] => some 0
  | _ =>
    let signAndRest : Bool × List Char :=
      match t with
      | '-' :: rest => (true, rest)
      | '+' :: rest => (false, rest)
      | _ => (false, t)
    let ds1 := signAndRest.2.takeWhile Char.isDigit
    let after1 := signAndRest.2.dropWhile Char.isDigit
    let valOf : List Char → Rat := fun ds2 =>
      let n : Int := (digitsVal ds1 * 10 ^ ds2.length + digitsVal ds2 : Nat)
      mkRat (if signAndRest.1 then -n else n) (10 ^ ds2.length)
    match after1 with
    | [] => if ds1.isEmpty then none else some (valOf [])
    | '.' :: r2 =>
      let ds2 := r2.takeWhile Char.isDigit
      let r3 := r2.dropWhile Char.isDigit
      if r3.isEmpty && !(ds1.isEmpty && ds2.isEmpty) then some (valOf ds2)
      else none
    | _ => none

/-- Split a character list on a separator (JS `String.prototype.split` with
a single-character separator: empty fields are kept). -/
def splitOnChar (sep : Char) : List Char → List (List Char)
  | [] => [[]]
  | c :: rest =>
    let r := splitOnChar sep rest
    if c = sep then [] :: r
    else
      match r with
      | [] => [[c]]
      | g :: gs => (c :: g) :: gs

/-- `Number` of the `i`-th split component; a component beyond the array
length is the destructured `undefined`, which coerces to NaN. -/
def jsNumAt (parts : List (List Char)) (i : Nat) : Option Rat :=
  match parts.get? i with
  | none => none
  | some cs => jsNumberChars cs

/-- Truncation toward zero (the ToInteger coercion of `Date` arguments). -/
def ratTrunc (q : Rat) : Int := q.num / q.den

/-- Model of the generic `new Date(string)` fallback (line 95) followed by
`formatDate` in the script timezone: a valid `YYYY-MM-DD` date-only string
is UTC midnight (same calendar date at UTC+9); a `YYYY-MM-DDThh:mm:ss`
string is local wall time (same date), with suffix `Z` marking UTC and
shifting the wall clock by +9 hours.  Other strings are Invalid Dates. -/
def genericDateKey (s : String) : Option String :=
  let cs := s.data
  match parseYmdChars (cs.take 10) with
  | none => none
  | some d =>
    match cs.drop 10 with
    | [] => some (renderYmd d)
    | 'T' :: rest =>
      match rest with
      | h1 :: h2 :: ':' :: m1 :: m2 :: ':' :: s1 :: s2 :: suffix =>
        if h1.isDigit && h2.isDigit && m1.isDigit && m2.isDigit &&
            s1.isDigit && s2.isDigit then
          let hh := charVal h1 * 10 + charVal h2
          let mi := charVal m1 * 10 + charVal m2
          let ss := charVal s1 * 10 + charVal s2
          if hh ≤ 23 && mi ≤ 59 && ss ≤ 59 then
            match suffix with
            | [] => some (renderYmd d)
            | ['Z'] =>
              some (renderYmd (normalizeLocal (d.y : Int) ((d.m : Int) - 1)
                (d.d : Int) ((hh : Int) + 9) (mi : Int) (ss : Int)))
            | _ => none
          else none
        else none
      | _ => none
    | _ => none

/-- The aggregator's per-row date key (lines 82-112): a `Date` cell is
formatted directly; a string cell split on `' '` into exactly two parts
has its components coerced with `Number` and fed to the rolling numeric
`Date` constructor (any NaN component gives an Invalid Date, skipping the
row); any other string goes through the generic `new Date(string)` parse;
non-string non-`Date` cells fail `getTime()` and are skipped. -/
def rowDateKey (c : Cell) : Option String :=
  match c with
  | .date d => some (renderYmd d)
  | .str s =>
    match splitOnChar ' ' s.data with
    | [dpart, tpart] =>
      let dps := splitOnChar '-' dpart
      let tps := splitOnChar ':' tpart
      match jsNumAt dps 0, jsNumAt dps 1, jsNumAt dps 2,
            jsNumAt tps 0, jsNumAt tps 1, jsNumAt tps 2 with
      | some y, some mo, some dd, some hh, some mi, some ss =>
        some (renderYmd (normalizeLocal (ratTrunc y) (ratTrunc mo - 1)
          (ratTrunc dd) (ratTrunc hh) (ratTrunc mi) (ratTrunc ss)))
      | _, _, _, _, _, _ => none
    | _ => genericDateKey s
  | _ => none

example : rowDateKey (.str "2025-05-09 00:31:28") = some "2025-05-09" := by decide
example : rowDateKey (.str "2025-12-31 25:00:00") = some "2026-01-01" := by decide
example : rowDateKey (.str "2025-05-09T20:00:00Z") = some "2025-05-10" := by decide
example : rowDateKey (.str "2025-05-09") = some "2025-05-09" := by decide
example : rowDateKey (.str "hello world") = none := by decide
example : rowDateKey (.num 42) = none := by decide

/-! ## The aggregation core (lines 76-166 of the aggregator) -/

/-- Per-day accumulator (`dailyData[dateStr]`). -/
structure DayAcc where
  count : Nat
  totalPL : Rat
  totalFees : Rat
deriving DecidableEq, Repr

def zeroAcc : DayAcc := ⟨0, 0, 0⟩

/-- One row's contribution (lines 127-129). -/
def bumpAcc (a : DayAcc) (pl fee : Rat) : DayAcc :=
  ⟨a.count + 1, jsAdd a.totalPL pl, jsAdd a.totalFees fee⟩

/-- The `dailyData` object: its key set in insertion order, and the per-key
accumulator (absent keys read as the zero accumulator, which is what the
`if (!dailyData[dateStr])` initialisation amounts to). -/
structure DailyData where
  keys : List String
  val : String → DayAcc

def emptyDaily : DailyData := ⟨[], fun _ => zeroAcc⟩

/-- Processing one keyed row into `dailyData`. -/
def stepDaily (m : DailyData) (e : String × Rat × Rat) : DailyData where
  keys := if e.1 ∈ m.keys then m.keys else m.keys ++ [e.1]
  val := fun s => if s = e.1 then bumpAcc (m.val s) e.2.1 e.2.2 else m.val s

/-- One output row of the 日次収益 sheet. -/
structure AggRow where
  date : String
  count : Nat
  totalPL : Rat
  totalFees : Rat
  netProfit : Rat
deriving DecidableEq, Repr

/-- The keyed rows that survive the scan: date key from the 取引日時
column, P&L and fee through `parseFloat(x) || 0` (`|| 0` coerces both NaN
and the falsy 0 to 0, which is the identity on the parsed value); a row
whose date cannot be parsed is skipped.  A missing 手数料 column
(`feeIdx = none`) reads as `row[-1] = undefined`, i.e. fee 0. -/
def keyedRows (dateIdx plIdx : Nat) (feeIdx : Option Nat)
    (rows : List (List Cell)) : List (String × Rat × Rat) :=
  rows.filterMap (fun row =>
    (rowDateKey (row.getD dateIdx Cell.empty)).map (fun k =>
      (k, (jsParseFloat (row.getD plIdx Cell.empty)).getD 0,
        (jsParseFloat (match feeIdx with
          | some i => row.getD i Cell.empty
          | none => Cell.empty)).getD 0)))

/-- The aggregation proper (lines 76-147): fold the keyed rows into
`dailyData`, sort the keys lexically ascending, and emit one output row
per day with `netProfit = totalProfitLoss - totalFees`. -/
def aggTable (dateIdx plIdx : Nat) (feeIdx : Option Nat)
    (rows : List (List Cell)) : List AggRow :=
  let m := (keyedRows dateIdx plIdx feeIdx rows).foldl stepDaily emptyDaily
  (List.insertionSort (· ≤ ·) m.keys).map (fun k =>
    ⟨k, (m.val k).count, (m.val k).totalPL, (m.val k).totalFees,
      jsSub (m.val k).totalPL (m.val k).totalFees⟩)

/-- The observable outcome of `calculateDailyProfits`: `noData` is the
データがありません alert followed by `return null` (line 48-56),
`missingCols` the 必要な列が見つかりません alert with `return null`
(line 65-73), and `ok table` the normal path that writes `table` to the
output sheet.  In every case the 日次収益 sheet's previous data rows were
already cleared (lines 36-41), so the final table contents are exactly
`writtenAggRows` of the outcome. -/
inductive CalcOutcome where
  | noData
  | missingCols
  | ok (table : List AggRow)
deriving DecidableEq, Repr

/-- The data rows present in the 日次収益 sheet after the call. -/
def writtenAggRows (o : CalcOutcome) : List AggRow :=
  match o with
  | .ok t => t
  | _ => []

/-- `calculateDailyProfits()` on the 取引履歴 sheet's value matrix
(header row first): requires at least one data row and the 取引日時 and
損益 header columns (手数料 is optional), then aggregates. -/
def calculateDailyProfits (values : List (List Cell)) : CalcOutcome :=
  match values with
  | [] => .noData
  | headers :: dataRows =>
    if dataRows.isEmpty then .noData
    else
      match headers.indexOf? (Cell.str "取引日時"),
            headers.indexOf? (Cell.str "損益") with
      | some di, some pli =>
        .ok (aggTable di pli (headers.indexOf? (Cell.str "手数料")) dataRows)
      | some _, none => .missingCols
      | none, _ => .missingCols

example :
    calculateDailyProfits
      [newHeaderCells,
       [Cell.num 1, Cell.num 7, Cell.str "c", Cell.str "2025-05-09 10:00:00",
        Cell.num 10, Cell.num 10, Cell.num 1, Cell.str "買い", Cell.num 1,
        Cell.str "いいえ", Cell.num 90],
       [Cell.num 2, Cell.num 7, Cell.str "c", Cell.str "2025-05-09 11:00:00",
        Cell.num 10, Cell.num (-4), Cell.str "0.5", Cell.str "売り",
        Cell.num 1, Cell.str "いいえ", Cell.num 91]] =
      .ok [⟨"2025-05-09", 2, 6, mkRat 3 2, mkRat 9 2⟩] := by decide

/-! ## Claim C6 (empty input) -/

/-- C6 counterexample: on an input with no data rows the aggregator does
not emit an empty aggregate table: it takes the データがありません alert
path and returns `null` (the same null signal as its error paths), leaving
the pre-cleared output sheet empty as a side effect. -/
theorem calculateDailyProfits_emptyInput_isAlert :
    calculateDailyProfits [newHeaderCells] = CalcOutcome.noData ∧
    calculateDailyProfits [newHeaderCells] ≠ CalcOutcome.ok [] := by
  refine ⟨rfl, ?_⟩
  intro h
  cases h.symm.trans rfl

/-- C6 amended: an input with no data rows leaves the output table empty
(the 日次収益 sheet was cleared before the check and nothing is written)
and raises no exception, but the function does not return an empty table:
it shows the no-data alert and returns null. -/
theorem calculateDailyProfits_emptyInput (values : List (List Cell))
    (h : values.length ≤ 1) :
    calculateDailyProfits values = CalcOutcome.noData ∧
    writtenAggRows (calculateDailyProfits values) = [] := by
  match values with
  | [] => exact ⟨rfl, rfl⟩
  | header :: dataRows =>
    have hd : dataRows = [] := by
      cases dataRows with
      | nil => rfl
      | cons a l => simp at h
    subst hd
    exact ⟨rfl, rfl⟩

theorem calculateDailyProfits_emptyInput_witness :
    ([newHeaderCells] : List (List Cell)).length ≤ 1 ∧
    (calculateDailyProfits [newHeaderCells] = CalcOutcome.noData ∧
      writtenAggRows (calculateDailyProfits [newHeaderCells]) = []) :=
  ⟨by decide, calculateDailyProfits_emptyInput [newHeaderCells] (by decide)⟩

/-! ## Permutation invariance machinery (claim C7) -/

theorem val_foldl_stepDaily (l : List (String × Rat × Rat)) :
    ∀ (m : DailyData) (k : String),
      (l.foldl stepDaily m).val k =
        (l.filter (fun e => e.1 = k)).foldl
          (fun a e => bumpAcc a e.2.1 e.2.2) (m.val k) := by
  induction l with
  | nil => intro m k; rfl
  | cons e l ih =>
    intro m k
    rw [List.foldl_cons, ih (stepDaily m e) k]
    by_cases hk : e.1 = k
    · rw [List.filter_cons_of_pos (by simp [hk]), List.foldl_cons]
      have : (stepDaily m e).val k = bumpAcc (m.val k) e.2.1 e.2.2 := by
        unfold stepDaily
        dsimp only
        rw [if_pos hk.symm]
      rw [this]
    · rw [List.filter_cons_of_neg (by simp [hk])]
      have : (stepDaily m e).val k = m.val k := by
        unfold stepDaily
        dsimp only
        rw [if_neg (fun hc => hk hc.symm)]
      rw [this]

theorem foldl_bumpAcc (l : List (String × Rat × Rat)) :
    ∀ a : DayAcc,
      l.foldl (fun a e => bumpAcc a e.2.1 e.2.2) a =
        ⟨a.count + l.length,
          a.totalPL + (l.map (fun e => e.2.1)).sum,
          a.totalFees + (l.map (fun e => e.2.2)).sum⟩ := by
  induction l with
  | nil =>
    intro a
    cases a
    simp
  | cons e l ih =>
    intro a
    rw [List.foldl_cons, ih]
    simp only [bumpAcc, jsAdd_eq, List.length_cons, List.map_cons,
      List.sum_cons, DayAcc.mk.injEq]
    refine ⟨by omega, by ring, by ring⟩

theorem mem_keys_foldl (l : List (String × Rat × Rat)) :
    ∀ (m : DailyData) (k : String),
      (k ∈ (l.foldl stepDaily m).keys ↔
        k ∈ m.keys ∨ k ∈ l.map (fun e => e.1)) := by
  induction l with
  | nil => intro m k; simp
  | cons e l ih =>
    intro m k
    rw [List.foldl_cons, ih (stepDaily m e) k]
    have hstep : k ∈ (stepDaily m e).keys ↔ (k ∈ m.keys ∨ k = e.1) := by
      unfold stepDaily
      dsimp only
      by_cases he : e.1 ∈ m.keys
      · rw [if_pos he]
        constructor
        · exact fun h => Or.inl h
        · rintro (h | h)
          · exact h
          · rw [h]; exact he
      · rw [if_neg he]
        simp [List.mem_append]
    rw [hstep]
    simp only [List.map_cons, List.mem_cons]
    tauto

theorem nodup_keys_foldl (l : List (String × Rat × Rat)) :
    ∀ m : DailyData, m.keys.Nodup → (l.foldl stepDaily m).keys.Nodup := by
  induction l with
  | nil => intro m h; exact h
  | cons e l ih =>
    intro m h
    rw [List.foldl_cons]
    apply ih
    unfold stepDaily
    dsimp only
    by_cases he : e.1 ∈ m.keys
    · rw [if_pos he]; exact h
    · rw [if_neg he]
      simp [List.nodup_append, h, he]

theorem aggTable_perm (dateIdx plIdx : Nat) (feeIdx : Option Nat)
    (d₁ d₂ : List (List Cell)) (hperm : d₁.Perm d₂) :
    aggTable dateIdx plIdx feeIdx d₁ = aggTable dateIdx plIdx feeIdx d₂ := by
  have hk : (keyedRows dateIdx plIdx feeIdx d₁).Perm
      (keyedRows dateIdx plIdx feeIdx d₂) := hperm.filterMap _
  unfold aggTable
  have hval : ∀ k,
      ((keyedRows dateIdx plIdx feeIdx d₁).foldl stepDaily emptyDaily).val k =
      ((keyedRows dateIdx plIdx feeIdx d₂).foldl stepDaily emptyDaily).val
        k := by
    intro k
    rw [val_foldl_stepDaily, val_foldl_stepDaily, foldl_bumpAcc, foldl_bumpAcc]
    have hfp := hk.filter (fun e => e.1 = k)
    rw [hfp.length_eq, (hfp.map (fun e => e.2.1)).sum_eq,
      (hfp.map (fun e => e.2.2)).sum_eq]
  have hkeys : List.insertionSort (· ≤ ·)
      ((keyedRows dateIdx plIdx feeIdx d₁).foldl stepDaily emptyDaily).keys =
      List.insertionSort (· ≤ ·)
        ((keyedRows dateIdx plIdx feeIdx d₂).foldl stepDaily
          emptyDaily).keys := by
    have n₁ := nodup_keys_foldl (keyedRows dateIdx plIdx feeIdx d₁)
      emptyDaily List.nodup_nil
    have n₂ := nodup_keys_foldl (keyedRows dateIdx plIdx feeIdx d₂)
      emptyDaily List.nodup_nil
    have pk := (List.perm_ext_iff_of_nodup n₁ n₂).mpr (by
      intro a
      rw [mem_keys_foldl, mem_keys_foldl]
      simp only [emptyDaily, List.not_mem_nil, false_or]
      exact (hk.map (fun e => e.1)).mem_iff)
    have s₁ : List.Sorted (· ≤ ·) (List.insertionSort (· ≤ ·)
        ((keyedRows dateIdx plIdx feeIdx d₁).foldl stepDaily
          emptyDaily).keys) := List.sorted_insertionSort _ _
    have s₂ : List.Sorted (· ≤ ·) (List.insertionSort (· ≤ ·)
        ((keyedRows dateIdx plIdx feeIdx d₂).foldl stepDaily
          emptyDaily).keys) := List.sorted_insertionSort _ _
    exact List.eq_of_perm_of_sorted
      ((List.perm_insertionSort _ _).trans
        (pk.trans (List.perm_insertionSort _ _).symm)) s₁ s₂
  dsimp only
  rw [hkeys]
  apply List.map_congr_left
  intro k _
  rw [hval k]

/-- Order-independence of the exact-arithmetic reading of the aggregator:
permuting the data rows produces the identical output table when the
per-day sums are taken in exact rational arithmetic.  (This is NOT a
property of the program's IEEE-754 double sums, which round
order-dependently; see the binary64 model and claim C7 below.) -/
theorem calculateDailyProfits_orderIndependent (header : List Cell)
    (d₁ d₂ : List (List Cell)) (hperm : d₁.Perm d₂) :
    calculateDailyProfits (header :: d₁) =
      calculateDailyProfits (header :: d₂) := by
  unfold calculateDailyProfits
  dsimp only
  have hemp : d₁.isEmpty = d₂.isEmpty := by
    cases d₁ with
    | nil =>
      rw [hperm.nil_eq]
    | cons a l =>
      cases d₂ with
      | nil => exact absurd hperm.symm.nil_eq (by simp)
      | cons b m => rfl
  rw [hemp]
  by_cases he : d₂.isEmpty
  · rw [if_pos he, if_pos he]
  · rw [if_neg he, if_neg he]
    cases header.indexOf? (Cell.str "取引日時") with
    | none => rfl
    | some di =>
      cases header.indexOf? (Cell.str "損益") with
      | none => rfl
      | some pli =>
        dsimp only
        rw [aggTable_perm di pli (header.indexOf? (Cell.str "手数料"))
          d₁ d₂ hperm]

/-! ## Locating a day in the output table (claim C8) -/

/-- The output row of day `k`, as the reader of the 日次収益 sheet finds
it. -/
def lookupDay (t : List AggRow) (k : String) : Option AggRow :=
  t.find? (fun r => r.date = k)

theorem find?_date_map {β : Type} (g : String → β) (date : β → String)
    (hg : ∀ k', date (g k') = k') (l : List String) (k : String) :
    (l.map g).find? (fun r => date r = k) =
      (l.find? (fun x => x = k)).map g := by
  induction l with
  | nil => rfl
  | cons a l ih =>
    simp only [List.map_cons, List.find?_cons, hg]
    by_cases ha : a = k
    · simp [ha]
    · simp only [ha, decide_False]
      exact ih

theorem find?_eq_self (l : List String) (k : String) :
    l.find? (fun x => x = k) = if k ∈ l then some k else none := by
  induction l with
  | nil => simp
  | cons a l ih =>
    by_cases ha : a = k
    · subst ha
      simp [List.find?_cons]
    · have ha' : ¬(k = a) := fun h => ha h.symm
      simp [List.find?_cons, ha, ha', ih, List.mem_cons]

/-- The per-day statistics of a keyed row list: count, P&L sum, fee sum
and net over the rows of day `k` (the closed form of the fold). -/
def dayStats (k : String) (keyed : List (String × Rat × Rat)) : AggRow :=
  ⟨k, (keyed.filter (fun e => e.1 = k)).length,
    ((keyed.filter (fun e => e.1 = k)).map (fun e => e.2.1)).sum,
    ((keyed.filter (fun e => e.1 = k)).map (fun e => e.2.2)).sum,
    jsSub ((keyed.filter (fun e => e.1 = k)).map (fun e => e.2.1)).sum
      ((keyed.filter (fun e => e.1 = k)).map (fun e => e.2.2)).sum⟩

theorem lookupDay_aggTable (dateIdx plIdx : Nat) (feeIdx : Option Nat)
    (rows : List (List Cell)) (k : String) :
    lookupDay (aggTable dateIdx plIdx feeIdx rows) k =
      if k ∈ (keyedRows dateIdx plIdx feeIdx rows).map (fun e => e.1) then
        some (dayStats k (keyedRows dateIdx plIdx feeIdx rows))
      else none := by
  unfold lookupDay aggTable
  dsimp only
  rw [find?_date_map _ AggRow.date (fun k' => rfl)]
  rw [find?_eq_self]
  have hmem : (k ∈ List.insertionSort (· ≤ ·)
      ((keyedRows dateIdx plIdx feeIdx rows).foldl stepDaily
        emptyDaily).keys) ↔
      k ∈ (keyedRows dateIdx plIdx feeIdx rows).map (fun e => e.1) := by
    rw [(List.perm_insertionSort _ _).mem_iff, mem_keys_foldl]
    simp [emptyDaily]
  by_cases hk : k ∈ (keyedRows dateIdx plIdx feeIdx rows).map (fun e => e.1)
  · rw [if_pos (hmem.mpr hk), if_pos hk]
    have hv : ((keyedRows dateIdx plIdx feeIdx rows).foldl stepDaily
        emptyDaily).val k =
        ⟨((keyedRows dateIdx plIdx feeIdx rows).filter
            (fun e => e.1 = k)).length,
          (((keyedRows dateIdx plIdx feeIdx rows).filter
            (fun e => e.1 = k)).map (fun e => e.2.1)).sum,
          (((keyedRows dateIdx plIdx feeIdx rows).filter
            (fun e => e.1 = k)).map (fun e => e.2.2)).sum⟩ := by
      rw [val_foldl_stepDaily, foldl_bumpAcc]
      simp [emptyDaily, zeroAcc]
    simp only [Option.map_some']
    rw [hv]
    rfl
  · rw [if_neg (fun hc => hk (hmem.mp hc)), if_neg hk]
    rfl

theorem aggTable_net (dateIdx plIdx : Nat) (feeIdx : Option Nat)
    (rows : List (List Cell)) :
    ∀ row ∈ aggTable dateIdx plIdx feeIdx rows,
      row.netProfit = row.totalPL - row.totalFees := by
  intro row hrow
  unfold aggTable at hrow
  dsimp only at hrow
  obtain ⟨k', _, hrow⟩ := List.mem_map.mp hrow
  rw [← hrow]
  exact jsSub_eq _ _

theorem calc_std_ok (d : List (List Cell)) (hd : d.isEmpty = false) :
    calculateDailyProfits (newHeaderCells :: d) =
      .ok (aggTable 3 5 (some 6) d) := by
  unfold calculateDailyProfits
  dsimp only
  rw [hd]
  rfl

/-- C8: a ledger row whose 損益 cell is null/missing/non-numeric
(`parseFloat` gives NaN, coerced to 0 by `|| 0`) still increments its
day's tradeCount by one while contributing exactly 0 to the day's
totalProfitLoss; and every emitted day satisfies
`netProfit = totalProfitLoss - totalFees`.  Stated over the standard
11-column ledger header, with the row inserted at an arbitrary position. -/
theorem calculateDailyProfits_nullPnl (pre post : List (List Cell))
    (r : List Cell) (k : String)
    (hk : rowDateKey (r.getD 3 Cell.empty) = some k)
    (hp : jsParseFloat (r.getD 5 Cell.empty) = none) :
    ((lookupDay (writtenAggRows (calculateDailyProfits
        (newHeaderCells :: (pre ++ r :: post)))) k).map AggRow.count =
      some (((lookupDay (writtenAggRows (calculateDailyProfits
        (newHeaderCells :: (pre ++ post)))) k).map AggRow.count).getD 0
          + 1)) ∧
    ((lookupDay (writtenAggRows (calculateDailyProfits
        (newHeaderCells :: (pre ++ r :: post)))) k).map AggRow.totalPL =
      some (((lookupDay (writtenAggRows (calculateDailyProfits
        (newHeaderCells :: (pre ++ post)))) k).map AggRow.totalPL).getD 0)) ∧
    (∀ row ∈ writtenAggRows (calculateDailyProfits
        (newHeaderCells :: (pre ++ r :: post))),
      row.netProfit = row.totalPL - row.totalFees) := by
  have hne : (pre ++ r :: post).isEmpty = false := by
    cases pre <;> rfl
  rw [calc_std_ok (pre ++ r :: post) hne]
  have hkeyed : keyedRows 3 5 (some 6) (pre ++ r :: post) =
      keyedRows 3 5 (some 6) pre ++
        (k, 0, (jsParseFloat (r.getD 6 Cell.empty)).getD 0) ::
          keyedRows 3 5 (some 6) post := by
    unfold keyedRows
    rw [List.filterMap_append]
    congr 1
    rw [List.filterMap_cons]
    rw [show (rowDateKey (r.getD 3 Cell.empty)).map (fun k' =>
        (k', (jsParseFloat (r.getD 5 Cell.empty)).getD 0,
          (jsParseFloat (match (some 6 : Option Nat) with
            | some i => r.getD i Cell.empty
            | none => Cell.empty)).getD 0)) =
        some (k, 0, (jsParseFloat (r.getD 6 Cell.empty)).getD 0) by
      rw [hk, hp]
      rfl]
  have hkmem : k ∈ (keyedRows 3 5 (some 6) (pre ++ r :: post)).map
      (fun e => e.1) := by
    rw [hkeyed]
    simp
  have hfilter : (keyedRows 3 5 (some 6) (pre ++ r :: post)).filter
      (fun e => e.1 = k) =
      (keyedRows 3 5 (some 6) pre).filter (fun e => e.1 = k) ++
        (k, 0, (jsParseFloat (r.getD 6 Cell.empty)).getD 0) ::
          (keyedRows 3 5 (some 6) post).filter (fun e => e.1 = k) := by
    rw [hkeyed, List.filter_append, List.filter_cons]
    simp
  refine ⟨?_, ?_, ?_⟩
  · -- tradeCount
    dsimp only [writtenAggRows]
    rw [lookupDay_aggTable, if_pos hkmem]
    by_cases hpp : (pre ++ post).isEmpty = true
    · have hpre : pre = [] := by
        cases pre with
        | nil => rfl
        | cons a l => simp at hpp
      have hpost : post = [] := by
        subst hpre
        cases post with
        | nil => rfl
        | cons a l => simp at hpp
      subst hpre
      subst hpost
      simp only [Option.map_some']
      unfold dayStats
      rw [hfilter]
      simp [calculateDailyProfits, lookupDay, keyedRows]
    · have hpp' : (pre ++ post).isEmpty = false := by
        cases h : (pre ++ post).isEmpty
        · rfl
        · exact absurd h hpp
      rw [calc_std_ok (pre ++ post) hpp']
      dsimp only [writtenAggRows]
      rw [lookupDay_aggTable]
      have hk0 : keyedRows 3 5 (some 6) (pre ++ post) =
          keyedRows 3 5 (some 6) pre ++ keyedRows 3 5 (some 6) post := by
        unfold keyedRows
        rw [List.filterMap_append]
      by_cases hmem0 : k ∈ (keyedRows 3 5 (some 6) (pre ++ post)).map
          (fun e => e.1)
      · rw [if_pos hmem0]
        simp only [Option.map_some', Option.getD_some]
        unfold dayStats
        dsimp only
        rw [hfilter, hk0, List.filter_append]
        simp [List.length_append]
        omega
      · rw [if_neg hmem0]
        simp only [Option.map_none', Option.getD_none]
        have hfp : (keyedRows 3 5 (some 6) pre).filter
            (fun e => e.1 = k) = [] := by
          rw [List.filter_eq_nil_iff]
          intro e he
          intro hek
          apply hmem0
          rw [hk0, List.map_append]
          refine List.mem_append.mpr (Or.inl ?_)
          exact List.mem_map.mpr ⟨e, he, by simpa using hek⟩
        have hfq : (keyedRows 3 5 (some 6) post).filter
            (fun e => e.1 = k) = [] := by
          rw [List.filter_eq_nil_iff]
          intro e he
          intro hek
          apply hmem0
          rw [hk0, List.map_append]
          refine List.mem_append.mpr (Or.inr ?_)
          exact List.mem_map.mpr ⟨e, he, by simpa using hek⟩
        simp only [Option.map_some']
        unfold dayStats
        rw [hfilter, hfp, hfq]
        rfl
  · -- totalProfitLoss
    dsimp only [writtenAggRows]
    rw [lookupDay_aggTable, if_pos hkmem]
    by_cases hpp : (pre ++ post).isEmpty = true
    · have hpre : pre = [] := by
        cases pre with
        | nil => rfl
        | cons a l => simp at hpp
      have hpost : post = [] := by
        subst hpre
        cases post with
        | nil => rfl
        | cons a l => simp at hpp
      subst hpre
      subst hpost
      simp only [Option.map_some']
      unfold dayStats
      rw [hfilter]
      simp [calculateDailyProfits, lookupDay, keyedRows]
    · have hpp' : (pre ++ post).isEmpty = false := by
        cases h : (pre ++ post).isEmpty
        · rfl
        · exact absurd h hpp
      rw [calc_std_ok (pre ++ post) hpp']
      dsimp only [writtenAggRows]
      rw [lookupDay_aggTable]
      have hk0 : keyedRows 3 5 (some 6) (pre ++ post) =
          keyedRows 3 5 (some 6) pre ++ keyedRows 3 5 (some 6) post := by
        unfold keyedRows
        rw [List.filterMap_append]
      by_cases hmem0 : k ∈ (keyedRows 3 5 (some 6) (pre ++ post)).map
          (fun e => e.1)
      · rw [if_pos hmem0]
        simp only [Option.map_some', Option.getD_some]
        unfold dayStats
        dsimp only
        rw [hfilter, hk0, List.filter_append]
        simp
      · rw [if_neg hmem0]
        simp only [Option.map_none', Option.getD_none]
        have hfp : (keyedRows 3 5 (some 6) pre).filter
            (fun e => e.1 = k) = [] := by
          rw [List.filter_eq_nil_iff]
          intro e he
          intro hek
          apply hmem0
          rw [hk0, List.map_append]
          refine List.mem_append.mpr (Or.inl ?_)
          exact List.mem_map.mpr ⟨e, he, by simpa using hek⟩
        have hfq : (keyedRows 3 5 (some 6) post).filter
            (fun e => e.1 = k) = [] := by
          rw [List.filter_eq_nil_iff]
          intro e he
          intro hek
          apply hmem0
          rw [hk0, List.map_append]
          refine List.mem_append.mpr (Or.inr ?_)
          exact List.mem_map.mpr ⟨e, he, by simpa using hek⟩
        simp only [Option.map_some']
        unfold dayStats
        rw [hfilter, hfp, hfq]
        simp
  · -- netProfit = totalPL - totalFees
    dsimp only [writtenAggRows]
    exact aggTable_net 3 5 (some 6) (pre ++ r :: post)

theorem calculateDailyProfits_nullPnl_witness :
    (lookupDay (writtenAggRows (calculateDailyProfits
      (newHeaderCells :: [[Cell.num 1, Cell.num 7, Cell.str "c",
        Cell.str "2025-05-09 10:00:00", Cell.num 10, Cell.empty,
        Cell.num 1]]))) "2025-05-09").map AggRow.count = some 1 := by
  have h := calculateDailyProfits_nullPnl [] []
    [Cell.num 1, Cell.num 7, Cell.str "c",
     Cell.str "2025-05-09 10:00:00", Cell.num 10, Cell.empty, Cell.num 1]
    "2025-05-09" (by decide) rfl
  simpa [calculateDailyProfits, writtenAggRows, lookupDay] using h.1

/-! ## IEEE-754 binary64 arithmetic and claim C7

The aggregator accumulates `totalProfitLoss`/`totalFees` with `+=` on
JavaScript numbers, which are IEEE-754 binary64 doubles: each addition
rounds the exact sum to the nearest representable double (ties to even).
The model below implements that rounding exactly for the normal range
(gradual underflow below 2^-1022 and overflow to infinity are outside
every input considered here and are not modelled; the scaling loops carry
ample fuel for the binary64 exponent range). -/

/-- Double the denominator (halving the value) until the significand
`x / y` is below 2^53. -/
def fpScaleDown (fuel : Nat) (x y : Nat) (e : Int) : Nat × Int :=
  match fuel with
  | 0 => (y, e)
  | fuel + 1 =>
    if x < 9007199254740992 * y then (y, e)
    else fpScaleDown fuel x (y * 2) (e + 1)

/-- Double the numerator until the significand `x / y` reaches 2^52. -/
def fpScaleUp (fuel : Nat) (x y : Nat) (e : Int) : Nat × Int :=
  match fuel with
  | 0 => (x, e)
  | fuel + 1 =>
    if 4503599627370496 * y ≤ x then (x, e)
    else fpScaleUp fuel (x * 2) y (e - 1)

/-- Round an exact rational to the nearest binary64 double (round to
nearest, ties to even), for the normal range: scale the magnitude into
`[2^52, 2^53)`, round the scaled significand, renormalise the all-ones
carry case. -/
def fpRound (q : Rat) : Rat :=
  if q.num = 0 then mkRat 0 1
  else
    let a := q.num.natAbs
    let yScaled := fpScaleDown 1200 a q.den 0
    let xScaled := fpScaleUp 1200 a yScaled.1 yScaled.2
    let x := xScaled.1
    let y := yScaled.1
    let m0 := x / y
    let r := x % y
    let m := if 2 * r < y then m0
      else if y < 2 * r then m0 + 1
      else if m0 % 2 = 0 then m0 else m0 + 1
    let m2 := if m = 9007199254740992 then 4503599627370496 else m
    let e : Int := if m = 9007199254740992 then xScaled.2 + 1 else xScaled.2
    let sgn : Int := if q.num < 0 then -1 else 1
    if 0 ≤ e then mkRat (sgn * (m2 : Int) * ((2 ^ e.toNat : Nat) : Int)) 1
    else mkRat (sgn * (m2 : Int)) (2 ^ (-e).toNat)

/-- JavaScript `a + b` on numbers: the exact sum rounded to a double. -/
def fpAdd (a b : Rat) : Rat := fpRound (jsAdd a b)

/-- JavaScript `a - b` on numbers. -/
def fpSub (a b : Rat) : Rat := fpRound (jsSub a b)

/-- The double nearest 0.1: `0x1.999999999999ap-4`. -/
def dblTenth : Rat := mkRat 3602879701896397 36028797018963968

/-- The double nearest 0.2. -/
def dblFifth : Rat := mkRat 3602879701896397 18014398509481984

/-- The double nearest 0.3. -/
def dblThreeTenths : Rat := mkRat 5404319552844595 18014398509481984

example : fpAdd (fpAdd dblTenth dblFifth) dblThreeTenths =
    mkRat 5404319552844596 9007199254740992 := by decide
example : fpAdd (fpAdd dblThreeTenths dblFifth) dblTenth =
    mkRat 5404319552844595 9007199254740992 := by decide
example : fpAdd (mkRat 0 1) dblTenth = dblTenth := by decide

/-- The per-day accumulation (lines 127-129) with its binary64 semantics. -/
def bumpAccFp (a : DayAcc) (pl fee : Rat) : DayAcc :=
  ⟨a.count + 1, fpAdd a.totalPL pl, fpAdd a.totalFees fee⟩

/-- `stepDaily` with binary64 accumulation. -/
def stepDailyFp (m : DailyData) (e : String × Rat × Rat) : DailyData where
  keys := if e.1 ∈ m.keys then m.keys else m.keys ++ [e.1]
  val := fun s => if s = e.1 then bumpAccFp (m.val s) e.2.1 e.2.2 else m.val s

/-- `aggTable` (lines 76-147) with the `+=` accumulations and the
`netProfit` subtraction given their binary64 semantics; identical to
`aggTable` in every non-numeric respect. -/
def aggTableFp (dateIdx plIdx : Nat) (feeIdx : Option Nat)
    (rows : List (List Cell)) : List AggRow :=
  let m := (keyedRows dateIdx plIdx feeIdx rows).foldl stepDailyFp emptyDaily
  (List.insertionSort (· ≤ ·) m.keys).map (fun k =>
    ⟨k, (m.val k).count, (m.val k).totalPL, (m.val k).totalFees,
      fpSub (m.val k).totalPL (m.val k).totalFees⟩)

/-- `calculateDailyProfits` with binary64 arithmetic: what the program
computes on real JavaScript numbers. -/
def calculateDailyProfitsFp (values : List (List Cell)) : CalcOutcome :=
  match values with
  | [] => .noData
  | headers :: dataRows =>
    if dataRows.isEmpty then .noData
    else
      match headers.indexOf? (Cell.str "取引日時"),
            headers.indexOf? (Cell.str "損益") with
      | some di, some pli =>
        .ok (aggTableFp di pli (headers.indexOf? (Cell.str "手数料"))
          dataRows)
      | some _, none => .missingCols
      | none, _ => .missingCols

/-- A ledger row of 2025-05-09 (the 取引日時 cell a native `Date`, as the
row store returns for date-formatted cells) with P&L the double nearest
0.1. -/
def fpRowA : List Cell :=
  [Cell.num 1, Cell.num 7, Cell.str "c", Cell.date ⟨2025, 5, 9⟩,
   Cell.num 10, Cell.num dblTenth, Cell.num 0]

/-- A second 2025-05-09 row, P&L the double nearest 0.2. -/
def fpRowB : List Cell :=
  [Cell.num 2, Cell.num 7, Cell.str "c", Cell.date ⟨2025, 5, 9⟩,
   Cell.num 10, Cell.num dblFifth, Cell.num 0]

/-- A third 2025-05-09 row, P&L the double nearest 0.3. -/
def fpRowC : List Cell :=
  [Cell.num 3, Cell.num 7, Cell.str "c", Cell.date ⟨2025, 5, 9⟩,
   Cell.num 10, Cell.num dblThreeTenths, Cell.num 0]

set_option maxRecDepth 8192 in
set_option maxHeartbeats 1600000 in
/-- C7 counterexample: the three rows of 2025-05-09 carrying the doubles
nearest 0.1, 0.2 and 0.3 are a permutation of the same rows reversed, yet
the program's aggregation emits `totalProfitLoss = 0.6000000000000001`
(the double `5404319552844596 * 2^-53`) for the first order and `0.6`
(the double `5404319552844595 * 2^-53`) for the reversed order: binary64
addition rounds order-dependently, so the emitted `DailyAggregate`
records are not exactly the same. -/
theorem calculateDailyProfitsFp_orderDependent :
    ([fpRowA, fpRowB, fpRowC] : List (List Cell)).Perm
      [fpRowC, fpRowB, fpRowA] ∧
    (writtenAggRows (calculateDailyProfitsFp
        (newHeaderCells :: [fpRowA, fpRowB, fpRowC]))).map AggRow.totalPL =
      [mkRat 5404319552844596 9007199254740992] ∧
    (writtenAggRows (calculateDailyProfitsFp
        (newHeaderCells :: [fpRowC, fpRowB, fpRowA]))).map AggRow.totalPL =
      [mkRat 5404319552844595 9007199254740992] ∧
    calculateDailyProfitsFp (newHeaderCells :: [fpRowA, fpRowB, fpRowC]) ≠
      calculateDailyProfitsFp (newHeaderCells :: [fpRowC, fpRowB, fpRowA]) := by
  have h2 : (writtenAggRows (calculateDailyProfitsFp
      (newHeaderCells :: [fpRowA, fpRowB, fpRowC]))).map AggRow.totalPL =
      [mkRat 5404319552844596 9007199254740992] := by decide
  have h3 : (writtenAggRows (calculateDailyProfitsFp
      (newHeaderCells :: [fpRowC, fpRowB, fpRowA]))).map AggRow.totalPL =
      [mkRat 5404319552844595 9007199254740992] := by decide
  refine ⟨by decide, h2, h3, fun heq => ?_⟩
  rw [heq] at h2
  rw [h2] at h3
  exact absurd h3 (by decide)

/-- The binary64 fold builds exactly the same key list as the exact fold:
the `keys` update does not look at the accumulated numbers. -/
theorem keys_foldl_stepDailyFp (l : List (String × Rat × Rat)) :
    ∀ (m₁ m₂ : DailyData), m₁.keys = m₂.keys →
      (l.foldl stepDailyFp m₁).keys = (l.foldl stepDaily m₂).keys := by
  induction l with
  | nil => intro m₁ m₂ h; exact h
  | cons e l ih =>
    intro m₁ m₂ h
    rw [List.foldl_cons, List.foldl_cons]
    apply ih
    unfold stepDailyFp stepDaily
    dsimp only
    rw [h]

/-- The per-day count of the binary64 fold: one per contributing row,
independent of the rounding of the sums. -/
theorem count_val_foldl_stepDailyFp (l : List (String × Rat × Rat)) :
    ∀ (m : DailyData) (k : String),
      ((l.foldl stepDailyFp m).val k).count =
        (m.val k).count + (l.filter (fun e => e.1 = k)).length := by
  induction l with
  | nil => intro m k; simp
  | cons e l ih =>
    intro m k
    rw [List.foldl_cons, ih]
    by_cases hk : e.1 = k
    · rw [List.filter_cons_of_pos (by simp [hk])]
      have hv : ((stepDailyFp m e).val k).count = (m.val k).count + 1 := by
        unfold stepDailyFp
        dsimp only
        rw [if_pos hk.symm]
        rfl
      rw [hv, List.length_cons]
      omega
    · rw [List.filter_cons_of_neg (by simp [hk])]
      have hv : (stepDailyFp m e).val k = m.val k := by
        unfold stepDailyFp
        dsimp only
        rw [if_neg (fun hc => hk hc.symm)]
      rw [hv]

/-- Dates (in sorted order) and per-day counts of the binary64 aggregation
are permutation-invariant, even though the rounded sums need not be. -/
theorem aggTableFp_dateCount_perm (dateIdx plIdx : Nat) (feeIdx : Option Nat)
    (d₁ d₂ : List (List Cell)) (hperm : d₁.Perm d₂) :
    (aggTableFp dateIdx plIdx feeIdx d₁).map (fun r => (r.date, r.count)) =
      (aggTableFp dateIdx plIdx feeIdx d₂).map
        (fun r => (r.date, r.count)) := by
  have hk : (keyedRows dateIdx plIdx feeIdx d₁).Perm
      (keyedRows dateIdx plIdx feeIdx d₂) := hperm.filterMap _
  have hkeq₁ : ((keyedRows dateIdx plIdx feeIdx d₁).foldl stepDailyFp
      emptyDaily).keys =
      ((keyedRows dateIdx plIdx feeIdx d₁).foldl stepDaily
        emptyDaily).keys := keys_foldl_stepDailyFp _ _ _ rfl
  have hkeq₂ : ((keyedRows dateIdx plIdx feeIdx d₂).foldl stepDailyFp
      emptyDaily).keys =
      ((keyedRows dateIdx plIdx feeIdx d₂).foldl stepDaily
        emptyDaily).keys := keys_foldl_stepDailyFp _ _ _ rfl
  have hkeys : List.insertionSort (· ≤ ·)
      ((keyedRows dateIdx plIdx feeIdx d₁).foldl stepDailyFp
        emptyDaily).keys =
      List.insertionSort (· ≤ ·)
        ((keyedRows dateIdx plIdx feeIdx d₂).foldl stepDailyFp
          emptyDaily).keys := by
    rw [hkeq₁, hkeq₂]
    have n₁ := nodup_keys_foldl (keyedRows dateIdx plIdx feeIdx d₁)
      emptyDaily List.nodup_nil
    have n₂ := nodup_keys_foldl (keyedRows dateIdx plIdx feeIdx d₂)
      emptyDaily List.nodup_nil
    have pk := (List.perm_ext_iff_of_nodup n₁ n₂).mpr (by
      intro a
      rw [mem_keys_foldl, mem_keys_foldl]
      simp only [emptyDaily, List.not_mem_nil, false_or]
      exact (hk.map (fun e => e.1)).mem_iff)
    have s₁ : List.Sorted (· ≤ ·) (List.insertionSort (· ≤ ·)
        ((keyedRows dateIdx plIdx feeIdx d₁).foldl stepDaily
          emptyDaily).keys) := List.sorted_insertionSort _ _
    have s₂ : List.Sorted (· ≤ ·) (List.insertionSort (· ≤ ·)
        ((keyedRows dateIdx plIdx feeIdx d₂).foldl stepDaily
          emptyDaily).keys) := List.sorted_insertionSort _ _
    exact List.eq_of_perm_of_sorted
      ((List.perm_insertionSort _ _).trans
        (pk.trans (List.perm_insertionSort _ _).symm)) s₁ s₂
  unfold aggTableFp
  dsimp only
  rw [List.map_map, List.map_map, hkeys]
  apply List.map_congr_left
  intro k _
  show (k, (((keyedRows dateIdx plIdx feeIdx d₁).foldl stepDailyFp
      emptyDaily).val k).count) =
    (k, (((keyedRows dateIdx plIdx feeIdx d₂).foldl stepDailyFp
      emptyDaily).val k).count)
  rw [count_val_foldl_stepDailyFp, count_val_foldl_stepDailyFp,
    (hk.filter (fun e => e.1 = k)).length_eq]

/-- C7 amended: permuting the ledger's data rows yields the same table of
days in every rounding-independent respect - the exact-rational reading of
the aggregation produces the identical `DailyAggregate` table, and even
under the binary64 arithmetic the program actually computes, the emitted
days and their tradeCounts (in the same sorted order) are identical - but
the program's double sums themselves are order-dependent and can differ
under permutation, as the counterexample shows. -/
theorem calculateDailyProfits_permInvariant_upToRounding
    (header : List Cell) (d₁ d₂ : List (List Cell)) (hperm : d₁.Perm d₂) :
    calculateDailyProfits (header :: d₁) =
      calculateDailyProfits (header :: d₂) ∧
    (writtenAggRows (calculateDailyProfitsFp (header :: d₁))).map
        (fun r => (r.date, r.count)) =
      (writtenAggRows (calculateDailyProfitsFp (header :: d₂))).map
        (fun r => (r.date, r.count)) := by
  refine ⟨calculateDailyProfits_orderIndependent header d₁ d₂ hperm, ?_⟩
  unfold calculateDailyProfitsFp
  dsimp only
  have hemp : d₁.isEmpty = d₂.isEmpty := by
    cases d₁ with
    | nil =>
      rw [hperm.nil_eq]
    | cons a l =>
      cases d₂ with
      | nil => exact absurd hperm.symm.nil_eq (by simp)
      | cons b m => rfl
  rw [hemp]
  by_cases he : d₂.isEmpty
  · rw [if_pos he, if_pos he]
  · rw [if_neg he, if_neg he]
    cases header.indexOf? (Cell.str "取引日時") with
    | none => rfl
    | some di =>
      cases header.indexOf? (Cell.str "損益") with
      | none => rfl
      | some pli =>
        dsimp only [writtenAggRows]
        exact aggTableFp_dateCount_perm di pli
          (header.indexOf? (Cell.str "手数料")) d₁ d₂ hperm

set_option maxRecDepth 8192 in
set_option maxHeartbeats 1600000 in
theorem calculateDailyProfits_permInvariant_witness :
    ([fpRowA, fpRowB, fpRowC] : List (List Cell)).Perm
      [fpRowC, fpRowB, fpRowA] ∧
    (calculateDailyProfits (newHeaderCells :: [fpRowA, fpRowB, fpRowC]) =
        calculateDailyProfits (newHeaderCells :: [fpRowC, fpRowB, fpRowA]) ∧
      (writtenAggRows (calculateDailyProfitsFp
          (newHeaderCells :: [fpRowA, fpRowB, fpRowC]))).map
          (fun r => (r.date, r.count)) =
        (writtenAggRows (calculateDailyProfitsFp
          (newHeaderCells :: [fpRowC, fpRowB, fpRowA]))).map
          (fun r => (r.date, r.count))) :=
  ⟨by decide,
    calculateDailyProfits_permInvariant_upToRounding newHeaderCells _ _
      (by decide)⟩
